import Mathlib

/-! pg-ulid: a shallow embedding of `ulid.c`

The PostgreSQL extension stores a ULID as `struct ulid { uint8_t data[16]; }`:
six big-endian timestamp bytes followed by ten random bytes.  This file embeds
the functions of `ulid.c` as Lean definitions and proves properties of them.

Conventions of the embedding.

* A `uint8_t[n]` array is a list of `n` naturals below 256 (`ByteArr n`).
  C integer promotion turns every `uint8_t` operand into an `int`, so byte
  expressions are computed in `Nat` and truncated with `% 256` only where the
  source stores into a `uint8_t`.
* `uint64_t` arithmetic is arithmetic modulo `2 ^ 64`; `int64_t` values are
  integers, and a conversion to `int64_t` wraps (`i64`).
* A C string is the list of `char`s held by its buffer; the string proper ends
  at the first NUL (`strlen`, `cstr`), and a buffer without NUL is terminated
  right after its last element.
* `ereport(ERROR, ...)` does not return: functions that can raise return
  `Except UlidError`.
* The calls into the C library (`strlen`, `strchr`, `memcmp`, `memcpy`) and into
  the host (`palloc`, `pq_getmsgbytes`, `pq_sendbytes`, `hash_any`), the clock
  and the random source are the parts not defined in `ulid.c`; the clock
  reading, the random bytes and the host hash are arguments of the embedded
  functions.
* Of `memcmp` only the sign is fixed by ISO C.  The predicates and the order
  use the sign of the reference scan `memcmp`; what is said about the value of
  `ulid_cmp` is said for every `ConformingMemcmp` (`ulid_cmp_with`).
* `ulid_out` is the string that `ulid_to_string` writes; the size of the buffer
  it writes into is looked at separately, with bounds-checked stores
  (`ulid_out_checked`).
-/

set_option linter.all false

namespace Ulid

/-! ## Data model -/

/-- The macro `ULID_TIMESTAMP_LENGTH`. -/
def ULID_TIMESTAMP_LENGTH : Nat := 6

/-- The macro `ULID_RANDOM_LENGTH`. -/
def ULID_RANDOM_LENGTH : Nat := 10

/-- A C array `uint8_t[n]`: `n` bytes, each below 256. -/
structure ByteArr (n : Nat) where
  bytes : List Nat
  size_eq : bytes.length = n
  byte_lt : ∀ x ∈ bytes, x < 256
deriving DecidableEq

/-- The `struct ulid` of the source: `uint8_t data[ULID_TIMESTAMP_LENGTH + ULID_RANDOM_LENGTH]`. -/
structure ulid where
  data : ByteArr (ULID_TIMESTAMP_LENGTH + ULID_RANDOM_LENGTH)
deriving DecidableEq

/-- The C expression `ulid->data[i]`. -/
def ulid.get (u : ulid) (i : Nat) : Nat := u.data.bytes.getD i 0

/-- Storing `int` values into a `uint8_t[n]` array: every store truncates to 8 bits. -/
def store (n : Nat) (vals : List Nat) (h : vals.length = n) : ByteArr n :=
  ⟨vals.map (fun x => x % 256), by simpa using h, by
    intro x hx
    obtain ⟨y, -, rfl⟩ := List.mem_map.mp hx
    exact Nat.mod_lt _ (by decide)⟩

/-- The two messages `ulid.c` raises with `ERRCODE_INVALID_TEXT_REPRESENTATION`. -/
inductive UlidError where
  /-- The report "Invalid ULID: incorrect size". -/
  | incorrect_size
  /-- The report "Invalid ULID: invalid character". -/
  | invalid_character
deriving DecidableEq, Repr

/-! ## C strings -/

/-- The terminating character of a C string. -/
def NUL : Char := Char.ofNat 0

/-- The string held by a buffer: its characters before the first NUL. -/
def cstr : List Char → List Char
  | [] => []
  | c :: cs => if c = NUL then [] else c :: cstr cs

/-- The C library `strlen`: number of characters before the first NUL. -/
def strlen : List Char → Nat
  | [] => 0
  | c :: cs => if c = NUL then 0 else strlen cs + 1

/-- The C library `strchr(s, c)`, as the offset of the first occurrence of `c` in `s`; the
terminator counts as part of the string, so looking for NUL finds the end of the string. -/
def strchr : List Char → Char → Option Nat
  | [], c => if c = NUL then some 0 else none
  | x :: xs, c =>
    if x = c then some 0
    else if x = NUL then none
    else (strchr xs c).map (fun p => p + 1)

/-- The table `Encoding = "0123456789ABCDEFGHJKMNPQRSTVWXYZ"`. -/
def Encoding : List Char :=
  ['0', '1', '2', '3', '4', '5', '6', '7', '8', '9', 'A', 'B', 'C', 'D', 'E', 'F',
   'G', 'H', 'J', 'K', 'M', 'N', 'P', 'Q', 'R', 'S', 'T', 'V', 'W', 'X', 'Y', 'Z']

/-- The C expression `Encoding[i]`; offset 32 is the terminator of the literal. -/
def Encoding.at (i : Nat) : Char := Encoding.getD i NUL

/-- The C expression `ulid_str[i]` on a buffer. -/
def charAt (s : List Char) (i : Nat) : Char := s.getD i NUL

/-! ## Text codec -/

/-- The function `ulid_to_string`: the 27 characters written to `str[0..26]`. -/
def ulid_to_string (u : ulid) : List Char :=
  let data := u.get
  [ Encoding.at ((data 0 &&& 0xE0) >>> 5),
    Encoding.at (data 0 &&& 0x1F),
    Encoding.at ((data 1 &&& 0xF8) >>> 3),
    Encoding.at (((data 1 &&& 0x07) <<< 2) ||| ((data 2 &&& 0xC0) >>> 6)),
    Encoding.at ((data 2 &&& 0x3E) >>> 1),
    Encoding.at (((data 2 &&& 0x01) <<< 4) ||| ((data 3 &&& 0xF0) >>> 4)),
    Encoding.at (((data 3 &&& 0x0F) <<< 1) ||| ((data 4 &&& 0x80) >>> 7)),
    Encoding.at ((data 4 &&& 0x7C) >>> 2),
    Encoding.at (((data 4 &&& 0x03) <<< 3) ||| ((data 5 &&& 0xE0) >>> 5)),
    Encoding.at (data 5 &&& 0x1F),
    Encoding.at ((data 6 &&& 0xF8) >>> 3),
    Encoding.at (((data 6 &&& 0x07) <<< 2) ||| ((data 7 &&& 0xC0) >>> 6)),
    Encoding.at ((data 7 &&& 0x3E) >>> 1),
    Encoding.at (((data 7 &&& 0x01) <<< 4) ||| ((data 8 &&& 0xF0) >>> 4)),
    Encoding.at (((data 8 &&& 0x0F) <<< 1) ||| ((data 9 &&& 0x80) >>> 7)),
    Encoding.at ((data 9 &&& 0x7C) >>> 2),
    Encoding.at (((data 9 &&& 0x03) <<< 3) ||| ((data 10 &&& 0xE0) >>> 5)),
    Encoding.at (data 10 &&& 0x1F),
    Encoding.at ((data 11 &&& 0xF8) >>> 3),
    Encoding.at (((data 11 &&& 0x07) <<< 2) ||| ((data 12 &&& 0xC0) >>> 6)),
    Encoding.at ((data 12 &&& 0x3E) >>> 1),
    Encoding.at (((data 12 &&& 0x01) <<< 4) ||| ((data 13 &&& 0xF0) >>> 4)),
    Encoding.at (((data 13 &&& 0x0F) <<< 1) ||| ((data 14 &&& 0x80) >>> 7)),
    Encoding.at ((data 14 &&& 0x7C) >>> 2),
    Encoding.at (((data 14 &&& 0x03) <<< 3) ||| ((data 15 &&& 0xE0) >>> 5)),
    Encoding.at (data 15 &&& 0x1F),
    NUL ]

/-- The function `decodeULIDChar`: the offset of `c` in `Encoding`, returned as a `uint8_t`;
raises "invalid character" when `strchr` finds nothing. -/
def decodeULIDChar (c : Char) : Except UlidError Nat :=
  match strchr Encoding c with
  | none => .error .invalid_character
  | some pos => .ok (pos % 256)

/-- The function `decodeULIDString`: sixteen stores into `data[0..15]`, each combining the
decoded values of two or three characters. -/
def decodeULIDString (ulid_str : List Char) : Except UlidError ulid := do
  let s := charAt ulid_str
  let d0 := ((← decodeULIDChar (s 0)) <<< 5) ||| (← decodeULIDChar (s 1))
  let d1 := ((← decodeULIDChar (s 2)) <<< 3) ||| ((← decodeULIDChar (s 3)) >>> 2)
  let d2 := ((← decodeULIDChar (s 3)) <<< 6) ||| ((← decodeULIDChar (s 4)) <<< 1)
    ||| ((← decodeULIDChar (s 5)) >>> 4)
  let d3 := ((← decodeULIDChar (s 5)) <<< 4) ||| ((← decodeULIDChar (s 6)) >>> 1)
  let d4 := ((← decodeULIDChar (s 6)) <<< 7) ||| ((← decodeULIDChar (s 7)) <<< 2)
    ||| ((← decodeULIDChar (s 8)) >>> 3)
  let d5 := ((← decodeULIDChar (s 8)) <<< 5) ||| (← decodeULIDChar (s 9))
  let d6 := ((← decodeULIDChar (s 10)) <<< 3) ||| ((← decodeULIDChar (s 11)) >>> 2)
  let d7 := ((← decodeULIDChar (s 11)) <<< 6) ||| ((← decodeULIDChar (s 12)) <<< 1)
    ||| ((← decodeULIDChar (s 13)) >>> 4)
  let d8 := ((← decodeULIDChar (s 13)) <<< 4) ||| ((← decodeULIDChar (s 14)) >>> 1)
  let d9 := ((← decodeULIDChar (s 14)) <<< 7) ||| ((← decodeULIDChar (s 15)) <<< 2)
    ||| ((← decodeULIDChar (s 16)) >>> 3)
  let d10 := ((← decodeULIDChar (s 16)) <<< 5) ||| (← decodeULIDChar (s 17))
  let d11 := ((← decodeULIDChar (s 18)) <<< 3) ||| ((← decodeULIDChar (s 19)) >>> 2)
  let d12 := ((← decodeULIDChar (s 19)) <<< 6) ||| ((← decodeULIDChar (s 20)) <<< 1)
    ||| ((← decodeULIDChar (s 21)) >>> 4)
  let d13 := ((← decodeULIDChar (s 21)) <<< 4) ||| ((← decodeULIDChar (s 22)) >>> 1)
  let d14 := ((← decodeULIDChar (s 22)) <<< 7) ||| ((← decodeULIDChar (s 23)) <<< 2)
    ||| ((← decodeULIDChar (s 24)) >>> 3)
  let d15 := ((← decodeULIDChar (s 24)) <<< 5) ||| (← decodeULIDChar (s 25))
  pure ⟨store 16 [d0, d1, d2, d3, d4, d5, d6, d7, d8, d9, d10, d11, d12, d13, d14, d15] rfl⟩

/-- The function `ulid_in`: the length test comes first, then the decoding. -/
def ulid_in (ulid_str : List Char) : Except UlidError ulid :=
  if strlen ulid_str ≠ 26 then .error .incorrect_size
  else decodeULIDString ulid_str

/-- The function `ulid_out`: the C string that `ulid_to_string` writes into the buffer it is
handed.  The size of that allocation does not enter here; the characters are the ones
`ulid_to_string` stores. -/
def ulid_out (u : ulid) : List Char := ulid_to_string u

/-! ## Generation and timestamps -/

/-- Conversion of an integer to `uint64_t`: reduction modulo `2 ^ 64`. -/
def u64 (x : Int) : Nat := (x % 2 ^ 64).toNat

/-- Conversion of an integer to `int64_t`: two's-complement wrap into `[-2 ^ 63, 2 ^ 63)`. -/
def i64 (x : Int) : Int := (x + 2 ^ 63) % 2 ^ 64 - 2 ^ 63

/-- The constant `EpochMillis`: milliseconds from 1970-01-01 to 2000-01-01. -/
def EpochMillis : Nat := 946684800000

/-- The `struct timespec` filled by `clock_gettime(CLOCK_REALTIME, &tp)`. -/
structure timespec where
  tv_sec : Int
  tv_nsec : Int

/-- The function `generate_ulid`, with the clock reading `tp` and the ten bytes delivered by
`pg_strong_random` as arguments.  `timestamp = (uint64_t)tp.tv_sec * 1000 + tp.tv_nsec / 1000000`
is computed in `uint64_t`; bytes 0..5 receive its low 48 bits, bytes 6..15 the random bytes,
and `data[6] &= 0x7F` clears the top bit of the first random byte. -/
def generate_ulid (tp : timespec) (random : ByteArr ULID_RANDOM_LENGTH) : ulid :=
  let timestamp := u64 ((u64 tp.tv_sec : Int) * 1000 + tp.tv_nsec.tdiv 1000000)
  let r := fun i => random.bytes.getD i 0
  ⟨store 16
    [ timestamp >>> 40, timestamp >>> 32, timestamp >>> 24, timestamp >>> 16, timestamp >>> 8,
      timestamp,
      r 0 &&& 0x7F, r 1, r 2, r 3, r 4, r 5, r 6, r 7, r 8, r 9 ] rfl⟩

/-- The function `gen_ulid`: allocate and call `generate_ulid`. -/
def gen_ulid (tp : timespec) (random : ByteArr ULID_RANDOM_LENGTH) : ulid :=
  generate_ulid tp random

/-- The function `ulid_to_timestamp`.  The six timestamp bytes are or-ed into a `uint64_t`
(a byte shifted by at most 40 stays below `2 ^ 48`, so these shifts do not wrap);
`(((TimestampTz)timestamp) - EpochMillis) * 1000` is evaluated in `uint64_t` (the `int64_t`
operand is converted to the unsigned type of `EpochMillis`) and the product is converted to
the `int64_t` result. -/
def ulid_to_timestamp (u : ulid) : Int :=
  let data := u.get
  let timestamp : Nat := 0
  let timestamp := timestamp ||| (data 0 <<< 40)
  let timestamp := timestamp ||| (data 1 <<< 32)
  let timestamp := timestamp ||| (data 2 <<< 24)
  let timestamp := timestamp ||| (data 3 <<< 16)
  let timestamp := timestamp ||| (data 4 <<< 8)
  let timestamp := timestamp ||| data 5
  i64 (u64 ((u64 ((u64 (i64 timestamp) : Int) - EpochMillis) : Int) * 1000))

/-- The function `timestamp_to_ulid`, with the `int64_t` argument `ts` (microseconds since
2000-01-01) and the ten bytes delivered by `pg_strong_random` as arguments.
`timestamp = (uint64_t)(ts / 1000) + EpochMillis`; the division is the truncating division
of C. -/
def timestamp_to_ulid (ts : Int) (random : ByteArr ULID_RANDOM_LENGTH) : ulid :=
  let timestamp := u64 ((u64 (ts.tdiv 1000) : Int) + EpochMillis)
  let r := fun i => random.bytes.getD i 0
  ⟨store 16
    [ timestamp >>> 40, timestamp >>> 32, timestamp >>> 24, timestamp >>> 16, timestamp >>> 8,
      timestamp,
      r 0 &&& 0x7F, r 1, r 2, r 3, r 4, r 5, r 6, r 7, r 8, r 9 ] rfl⟩

/-! ## Comparison -/

/-- The reference scan for the C library's `memcmp(s1, s2, n)`: the first `n` bytes are scanned
for the first pair that differs and the difference of that pair, as `unsigned char`s, is
returned (0 when there is none).  ISO C fixes the sign of `memcmp` only, and that sign is the
sign of this scan; the magnitude is the one a byte-wise implementation computes and is not a
property of the library (see `ConformingMemcmp`).  Every call in `ulid.c` passes two arrays of
`n = 16` bytes. -/
def memcmp : List Nat → List Nat → Nat → Int
  | l :: ls, r :: rs, n + 1 => if l = r then memcmp ls rs n else (l : Int) - (r : Int)
  | _, _, _ => 0

/-- The C expression `sizeof(ulid1->data)`. -/
def sizeof_data : Nat := ULID_TIMESTAMP_LENGTH + ULID_RANDOM_LENGTH

/-- The function `ulid_cmp`: the `int` returned by `memcmp`, handed back as it is. -/
def ulid_cmp (ulid1 ulid2 : ulid) : Int :=
  memcmp ulid1.data.bytes ulid2.data.bytes sizeof_data

/-- The function `ulid_eq`: `r == 0`. -/
def ulid_eq (ulid1 ulid2 : ulid) : Bool :=
  decide (memcmp ulid1.data.bytes ulid2.data.bytes sizeof_data = 0)

/-- The function `ulid_neq`: `r != 0`. -/
def ulid_neq (ulid1 ulid2 : ulid) : Bool :=
  decide (memcmp ulid1.data.bytes ulid2.data.bytes sizeof_data ≠ 0)

/-- The function `ulid_leq`: `r <= 0`. -/
def ulid_leq (ulid1 ulid2 : ulid) : Bool :=
  decide (memcmp ulid1.data.bytes ulid2.data.bytes sizeof_data ≤ 0)

/-- The function `ulid_lt`: `r < 0`. -/
def ulid_lt (ulid1 ulid2 : ulid) : Bool :=
  decide (memcmp ulid1.data.bytes ulid2.data.bytes sizeof_data < 0)

/-- The function `ulid_geq`: `r >= 0`. -/
def ulid_geq (ulid1 ulid2 : ulid) : Bool :=
  decide (memcmp ulid1.data.bytes ulid2.data.bytes sizeof_data ≥ 0)

/-- The function `ulid_gt`: `r > 0`. -/
def ulid_gt (ulid1 ulid2 : ulid) : Bool :=
  decide (memcmp ulid1.data.bytes ulid2.data.bytes sizeof_data > 0)

/-- What ISO C (7.24.4) fixes about a `memcmp`, for two arrays that hold at least `n` bytes:
the sign of its result is the sign of the difference of the first pair of bytes that differ,
and the result is 0 when none differs.  The reference scan `memcmp` has this sign; the
magnitude of a conforming result is free. -/
def ConformingMemcmp (libc_memcmp : List Nat → List Nat → Nat → Int) : Prop :=
  ∀ (s1 s2 : List Nat) (n : Nat), n ≤ s1.length → n ≤ s2.length →
    Int.sign (libc_memcmp s1 s2 n) = Int.sign (memcmp s1 s2 n)

/-- The function `ulid_cmp` with the C library's `memcmp` as an argument: the `int` that
`libc_memcmp` returns is handed back as it is.  `ulid_cmp` is the instance at the reference
scan. -/
def ulid_cmp_with (libc_memcmp : List Nat → List Nat → Nat → Int) (ulid1 ulid2 : ulid) : Int :=
  libc_memcmp ulid1.data.bytes ulid2.data.bytes sizeof_data

/-- A `memcmp` that conforms to ISO C and whose magnitudes differ by direction: -1 when the
first array is below the second, 1000 when it is above, 0 when the bytes agree. -/
def memcmp_skew (s1 s2 : List Nat) (n : Nat) : Int :=
  if memcmp s1 s2 n < 0 then -1 else if memcmp s1 s2 n = 0 then 0 else 1000

/-! ## Notions used to state the properties -/

/-- The number written by a list of digits in base `b`, most significant digit first. -/
def beVal (b : Nat) : List Nat → Nat
  | [] => 0
  | d :: ds => d * b ^ ds.length + beVal b ds

/-- The 128-bit unsigned integer read big-endian from the sixteen bytes of a value. -/
def ulid.toNat (u : ulid) : Nat := beVal 256 u.data.bytes

/-- The 48-bit unsigned integer read big-endian from `data[0..5]`, the timestamp field. -/
def ulid.timestampField (u : ulid) : Nat := beVal 256 (u.data.bytes.take ULID_TIMESTAMP_LENGTH)

/-- Lexicographic order of two strings by character code. -/
def strLt (s t : List Char) : Prop := List.Lex (fun c d : Char => c.toNat < d.toNat) s t

/-- The alphabet: the 32 characters of `Encoding`. -/
def inAlphabet (c : Char) : Prop := c ∈ Encoding

instance (c : Char) : Decidable (inAlphabet c) := inferInstanceAs (Decidable (c ∈ Encoding))

/-- The text `7ZZZZZZZZZZZZZZZZZZZZZZZZZ`, the largest whose first character is below `8`. -/
def maxText : List Char :=
  ['7', 'Z', 'Z', 'Z', 'Z', 'Z', 'Z', 'Z', 'Z', 'Z', 'Z', 'Z', 'Z',
   'Z', 'Z', 'Z', 'Z', 'Z', 'Z', 'Z', 'Z', 'Z', 'Z', 'Z', 'Z', 'Z']

/-- The text `80000000000000000000000000`, whose first character carries bit 3 of its index. -/
def overflowText : List Char :=
  ['8', '0', '0', '0', '0', '0', '0', '0', '0', '0', '0', '0', '0',
   '0', '0', '0', '0', '0', '0', '0', '0', '0', '0', '0', '0', '0']

/-- The text `00000000000000000000000000`. -/
def zeroText : List Char := List.replicate 26 '0'

/-- The value whose sixteen bytes are all zero. -/
def zeroUlid : ulid := ⟨store 16 [0, 0, 0, 0, 0, 0, 0, 0, 0, 0, 0, 0, 0, 0, 0, 0] rfl⟩

/-- The value whose first byte is 2 and whose other bytes are zero. -/
def twoUlid : ulid := ⟨store 16 [2, 0, 0, 0, 0, 0, 0, 0, 0, 0, 0, 0, 0, 0, 0, 0] rfl⟩

/-- The millisecond count of a clock reading, `tv_sec * 1000 + tv_nsec / 1000000`. -/
def timespec.millis (tp : timespec) : Int := tp.tv_sec * 1000 + tp.tv_nsec / 1000000

/-- A reading as `clock_gettime` delivers it after the epoch: a non-negative count of
seconds and a nanosecond part in `[0, 10 ^ 9)`. -/
def timespec.valid (tp : timespec) : Prop :=
  0 ≤ tp.tv_sec ∧ 0 ≤ tp.tv_nsec ∧ tp.tv_nsec < 1000000000

instance (tp : timespec) : Decidable tp.valid :=
  inferInstanceAs (Decidable (0 ≤ tp.tv_sec ∧ 0 ≤ tp.tv_nsec ∧ tp.tv_nsec < 1000000000))

/-- A clock reading: 1700000000 s and 123456789 ns after the epoch. -/
def clockA : timespec := ⟨1700000000, 123456789⟩

/-- The reading taken 5 ms after `clockA`. -/
def clockB : timespec := ⟨1700000000, 128456789⟩

/-- A random draw of ten bytes `0xFF`. -/
def drawMax : ByteArr ULID_RANDOM_LENGTH :=
  store 10 [255, 255, 255, 255, 255, 255, 255, 255, 255, 255] rfl

/-- A random draw of ten zero bytes. -/
def drawZero : ByteArr ULID_RANDOM_LENGTH := store 10 [0, 0, 0, 0, 0, 0, 0, 0, 0, 0] rfl

/-! ## Hashing and the binary protocol -/

/-- The function `ulid_hash`: `hash_any(ulid->data, sizeof(ulid->data))`.  `hash_any` belongs to
the host (`access/hash.h`); it is a function of the key bytes and the key length and is an
argument of the embedded function. -/
def ulid_hash (hash_any : List Nat → Nat → Nat) (u : ulid) : Nat :=
  hash_any u.data.bytes sizeof_data

/-- The host's `StringInfoData` as `ulid_recv` uses it: the bytes of a message and the read
cursor. -/
structure StringInfoData where
  data : List Nat
  cursor : Nat

/-- The report "insufficient data left in message" of the host's `pq_getmsgbytes`. -/
inductive PqError where
  /-- Fewer than `datalen` bytes are left after the cursor. -/
  | insufficient_data
deriving DecidableEq, Repr

/-- The host's `pq_getmsgbytes(msg, datalen)`: raises when `datalen > msg->len - msg->cursor`,
otherwise hands out the `datalen` bytes at the cursor and advances the cursor. -/
def pq_getmsgbytes (msg : StringInfoData) (datalen : Nat) :
    Except PqError (List Nat × StringInfoData) :=
  if datalen > msg.data.length - msg.cursor then .error .insufficient_data
  else .ok ((msg.data.drop msg.cursor).take datalen, { msg with cursor := msg.cursor + datalen })

/-- The C library `memcpy(dst, src, n)` into a `uint8_t[n]`: the first `n` bytes of `src`.  (A
source of fewer than `n` bytes is filled up with zeros to keep the function total; every call
in `ulid.c` copies from a source of `n` bytes.) -/
def memcpy (n : Nat) (src : List Nat) : ByteArr n :=
  store n ((src ++ List.replicate n 0).take n) (by simp)

/-- The function `ulid_recv`: sixteen bytes are taken from the message and copied into a fresh
`struct ulid`; the message is returned with its cursor advanced. -/
def ulid_recv (buf : StringInfoData) : Except PqError (ulid × StringInfoData) :=
  match pq_getmsgbytes buf sizeof_data with
  | .error e => .error e
  | .ok (src, buf') => .ok (⟨memcpy sizeof_data src⟩, buf')

/-- The host's `pq_begintypsend`: an output buffer whose payload is empty (the four bytes it
reserves for the length word are not part of the payload). -/
def pq_begintypsend : List Nat := []

/-- The host's `pq_sendbytes(buf, data, datalen)`: appends `datalen` bytes to the payload. -/
def pq_sendbytes (buf : List Nat) (data : List Nat) (datalen : Nat) : List Nat :=
  buf ++ data.take datalen

/-- The host's `pq_endtypsend`: the finished `bytea`, given by its payload. -/
def pq_endtypsend (buf : List Nat) : List Nat := buf

/-- The function `ulid_send`: the payload of the `bytea` built from `ulid->data`. -/
def ulid_send (u : ulid) : List Nat :=
  pq_endtypsend (pq_sendbytes pq_begintypsend u.data.bytes sizeof_data)

/-! ## Writes into an allocated buffer -/

/-- The host's `palloc(size)`: a buffer of `size` chars.  Its contents are unspecified; they are
taken as NUL here and every char is written before it is read. -/
def palloc (size : Nat) : List Char := List.replicate size NUL

/-- A bounds-checked store `str[i] = c`: `none` is the out-of-range branch. -/
def writeAt (str : List Char) (i : Nat) (c : Char) : Option (List Char) :=
  if i < str.length then some (str.set i c) else none

/-- Bounds-checked stores of the chars `cs` at `str[i]`, `str[i + 1]`, ... in this order; the
first store out of range ends the run in `none`. -/
def storeFrom : List Char → Nat → List Char → Option (List Char)
  | str, _, [] => some str
  | str, i, c :: cs =>
    match writeAt str i c with
    | none => none
    | some str' => storeFrom str' (i + 1) cs

/-- The function `ulid_to_string` with bounds-checked stores: its 27 assignments, `str[0]` first
and the terminator in `str[26]` last, the `i`-th char of `ulid_to_string u` going to `str[i]`. -/
def ulid_to_string_checked (u : ulid) (str : List Char) : Option (List Char) :=
  storeFrom str 0 (ulid_to_string u)

/-- The function `ulid_out` with bounds-checked stores: `char *ulid_str = palloc(17)`, then
`ulid_to_string(ulid, ulid_str)`. -/
def ulid_out_checked (u : ulid) : Option (List Char) :=
  ulid_to_string_checked u (palloc 17)

/-! ## Further notions and sample inputs -/

/-- The position of a character in the alphabet (32 for a character outside it). -/
def alphabetIndex (c : Char) : Nat := Encoding.indexOf c

/-- The text `01BX5ZZKBKACTAV9WEVGEMMVRY`. -/
def sampleText : List Char :=
  ['0', '1', 'B', 'X', '5', 'Z', 'Z', 'K', 'B', 'K', 'A', 'C', 'T',
   'A', 'V', '9', 'W', 'E', 'V', 'G', 'E', 'M', 'M', 'V', 'R', 'Y']

/-- The text of 26 characters `Z`. -/
def allZText : List Char := List.replicate 26 'Z'

/-- A stand-in for the host hash in examples: the sum of the first `keylen` key bytes. -/
def sumHash (k : List Nat) (keylen : Nat) : Nat := (k.take keylen).sum

/-! ## Bit operations as arithmetic -/

theorem shr_land (a b i : Nat) : (a &&& b) >>> i = (a >>> i) &&& (b >>> i) := by
  apply Nat.eq_of_testBit_eq
  intro j
  simp

theorem land_shr (x m i n : Nat) (hm : m >>> i = 2 ^ n - 1) :
    (x &&& m) >>> i = x / 2 ^ i % 2 ^ n := by
  rw [shr_land, hm, Nat.and_pow_two_sub_one_eq_mod, Nat.shiftRight_eq_div_pow]

theorem and_1F (x : Nat) : x &&& 0x1F = x % 32 := Nat.and_pow_two_sub_one_eq_mod x 5
theorem and_0F (x : Nat) : x &&& 0x0F = x % 16 := Nat.and_pow_two_sub_one_eq_mod x 4
theorem and_07 (x : Nat) : x &&& 0x07 = x % 8 := Nat.and_pow_two_sub_one_eq_mod x 3
theorem and_03 (x : Nat) : x &&& 0x03 = x % 4 := Nat.and_pow_two_sub_one_eq_mod x 2
theorem and_01 (x : Nat) : x &&& 0x01 = x % 2 := Nat.and_pow_two_sub_one_eq_mod x 1
theorem and_7F (x : Nat) : x &&& 0x7F = x % 128 := Nat.and_pow_two_sub_one_eq_mod x 7
theorem and_E0_shr (x : Nat) : (x &&& 0xE0) >>> 5 = x / 32 % 8 := land_shr x 0xE0 5 3 rfl
theorem and_F8_shr (x : Nat) : (x &&& 0xF8) >>> 3 = x / 8 % 32 := land_shr x 0xF8 3 5 rfl
theorem and_C0_shr (x : Nat) : (x &&& 0xC0) >>> 6 = x / 64 % 4 := land_shr x 0xC0 6 2 rfl
theorem and_3E_shr (x : Nat) : (x &&& 0x3E) >>> 1 = x / 2 % 32 := land_shr x 0x3E 1 5 rfl
theorem and_F0_shr (x : Nat) : (x &&& 0xF0) >>> 4 = x / 16 % 16 := land_shr x 0xF0 4 4 rfl
theorem and_80_shr (x : Nat) : (x &&& 0x80) >>> 7 = x / 128 % 2 := land_shr x 0x80 7 1 rfl
theorem and_7C_shr (x : Nat) : (x &&& 0x7C) >>> 2 = x / 4 % 32 := land_shr x 0x7C 2 5 rfl

theorem lor_eq_add (k a b : Nat) (ha : a % 2 ^ k = 0) (hb : b < 2 ^ k) : a ||| b = a + b := by
  obtain ⟨q, rfl⟩ : ∃ q, a = 2 ^ k * q := ⟨a / 2 ^ k, by have := Nat.div_add_mod a (2 ^ k); omega⟩
  exact (Nat.mul_add_lt_is_or hb q).symm

theorem lor_2 (a b : Nat) (ha : a % 2 = 0) (hb : b < 2) : a ||| b = a + b :=
  lor_eq_add 1 a b ha hb
theorem lor_4 (a b : Nat) (ha : a % 4 = 0) (hb : b < 4) : a ||| b = a + b :=
  lor_eq_add 2 a b ha hb
theorem lor_8 (a b : Nat) (ha : a % 8 = 0) (hb : b < 8) : a ||| b = a + b :=
  lor_eq_add 3 a b ha hb
theorem lor_16 (a b : Nat) (ha : a % 16 = 0) (hb : b < 16) : a ||| b = a + b :=
  lor_eq_add 4 a b ha hb
theorem lor_32 (a b : Nat) (ha : a % 32 = 0) (hb : b < 32) : a ||| b = a + b :=
  lor_eq_add 5 a b ha hb
theorem lor_64 (a b : Nat) (ha : a % 64 = 0) (hb : b < 64) : a ||| b = a + b :=
  lor_eq_add 6 a b ha hb
theorem lor_128 (a b : Nat) (ha : a % 128 = 0) (hb : b < 128) : a ||| b = a + b :=
  lor_eq_add 7 a b ha hb

/-! ## Values as sixteen bytes -/

theorem list16 (l : List Nat) (h : l.length = 16) :
    ∃ d0 d1 d2 d3 d4 d5 d6 d7 d8 d9 d10 d11 d12 d13 d14 d15,
      l = [d0, d1, d2, d3, d4, d5, d6, d7, d8, d9, d10, d11, d12, d13, d14, d15] := by
  match l, h with
  | [d0, d1, d2, d3, d4, d5, d6, d7, d8, d9, d10, d11, d12, d13, d14, d15], _ =>
    exact ⟨d0, d1, d2, d3, d4, d5, d6, d7, d8, d9, d10, d11, d12, d13, d14, d15, rfl⟩

theorem ulid.eq_of_bytes {u v : ulid} (h : u.data.bytes = v.data.bytes) : u = v := by
  obtain ⟨⟨ub, _, _⟩⟩ := u
  obtain ⟨⟨vb, _, _⟩⟩ := v
  simp only at h
  subst h
  rfl

theorem ulid.bytes_eq (u : ulid) :
    ∃ d0 d1 d2 d3 d4 d5 d6 d7 d8 d9 d10 d11 d12 d13 d14 d15 : Nat,
      u.data.bytes = [d0, d1, d2, d3, d4, d5, d6, d7, d8, d9, d10, d11, d12, d13, d14, d15] ∧
      (d0 < 256 ∧ d1 < 256 ∧ d2 < 256 ∧ d3 < 256 ∧ d4 < 256 ∧ d5 < 256 ∧ d6 < 256 ∧ d7 < 256) ∧
      (d8 < 256 ∧ d9 < 256 ∧ d10 < 256 ∧ d11 < 256 ∧ d12 < 256 ∧ d13 < 256 ∧ d14 < 256 ∧
        d15 < 256) := by
  obtain ⟨d0, d1, d2, d3, d4, d5, d6, d7, d8, d9, d10, d11, d12, d13, d14, d15, h⟩ :=
    list16 u.data.bytes u.data.size_eq
  have hb := u.data.byte_lt
  rw [h] at hb
  refine ⟨d0, d1, d2, d3, d4, d5, d6, d7, d8, d9, d10, d11, d12, d13, d14, d15, h, ?_, ?_⟩
  · simp only [List.mem_cons, List.mem_singleton, forall_eq_or_imp, forall_eq] at hb
    omega
  · simp only [List.mem_cons, List.mem_singleton, forall_eq_or_imp, forall_eq] at hb
    omega

/-! ## Characters of the alphabet -/

theorem decodeULIDChar_at (i : Nat) (h : i < 32) : decodeULIDChar (Encoding.at i) = .ok i := by
  interval_cases i <;> rfl

theorem Encoding.at_ne_NUL (i : Nat) (h : i < 32) : Encoding.at i ≠ NUL := by
  interval_cases i <;> decide

theorem mem_Encoding (c : Char) (h : c ∈ Encoding) : ∃ i, i < 32 ∧ c = Encoding.at i := by
  simp only [Encoding, List.mem_cons, List.mem_singleton, List.not_mem_nil, or_false] at h
  rcases h with h | h | h | h | h | h | h | h | h | h | h | h | h | h | h | h |
    h | h | h | h | h | h | h | h | h | h | h | h | h | h | h | h
  all_goals subst h
  exacts [⟨0, by decide, rfl⟩, ⟨1, by decide, rfl⟩, ⟨2, by decide, rfl⟩, ⟨3, by decide, rfl⟩,
    ⟨4, by decide, rfl⟩, ⟨5, by decide, rfl⟩, ⟨6, by decide, rfl⟩, ⟨7, by decide, rfl⟩,
    ⟨8, by decide, rfl⟩, ⟨9, by decide, rfl⟩, ⟨10, by decide, rfl⟩, ⟨11, by decide, rfl⟩,
    ⟨12, by decide, rfl⟩, ⟨13, by decide, rfl⟩, ⟨14, by decide, rfl⟩, ⟨15, by decide, rfl⟩,
    ⟨16, by decide, rfl⟩, ⟨17, by decide, rfl⟩, ⟨18, by decide, rfl⟩, ⟨19, by decide, rfl⟩,
    ⟨20, by decide, rfl⟩, ⟨21, by decide, rfl⟩, ⟨22, by decide, rfl⟩, ⟨23, by decide, rfl⟩,
    ⟨24, by decide, rfl⟩, ⟨25, by decide, rfl⟩, ⟨26, by decide, rfl⟩, ⟨27, by decide, rfl⟩,
    ⟨28, by decide, rfl⟩, ⟨29, by decide, rfl⟩, ⟨30, by decide, rfl⟩, ⟨31, by decide, rfl⟩]

theorem decodeULIDChar_not_mem (c : Char) (h : c ∉ Encoding) (h0 : c ≠ NUL) :
    decodeULIDChar c = .error .invalid_character := by
  simp only [Encoding, List.mem_cons, List.mem_singleton, List.not_mem_nil, or_false,
    not_or] at h
  obtain ⟨_, _, _, _, _, _, _, _, _, _, _, _, _, _, _, _, _, _, _, _, _, _, _, _, _, _, _, _,
    _, _, _, _⟩ := h
  have h0' : ¬ c = Char.ofNat 0 := h0
  have e : strchr Encoding c = none := by
    simp only [Encoding, strchr]
    simp [*, eq_comm, NUL]
  simp only [decodeULIDChar, e]

/-! ## Formatting and parsing in arithmetic form -/

theorem ulid_to_string_eq (u : ulid) (d0 d1 d2 d3 d4 d5 d6 d7 d8 d9 d10 d11 d12 d13 d14 d15 : Nat)
    (h : u.data.bytes = [d0, d1, d2, d3, d4, d5, d6, d7, d8, d9, d10, d11, d12, d13, d14, d15]) :
    ulid_to_string u =
      [ Encoding.at (d0 / 32 % 8), Encoding.at (d0 % 32),
        Encoding.at (d1 / 8 % 32), Encoding.at (d1 % 8 * 4 + d2 / 64 % 4),
        Encoding.at (d2 / 2 % 32), Encoding.at (d2 % 2 * 16 + d3 / 16 % 16),
        Encoding.at (d3 % 16 * 2 + d4 / 128 % 2), Encoding.at (d4 / 4 % 32),
        Encoding.at (d4 % 4 * 8 + d5 / 32 % 8), Encoding.at (d5 % 32),
        Encoding.at (d6 / 8 % 32), Encoding.at (d6 % 8 * 4 + d7 / 64 % 4),
        Encoding.at (d7 / 2 % 32), Encoding.at (d7 % 2 * 16 + d8 / 16 % 16),
        Encoding.at (d8 % 16 * 2 + d9 / 128 % 2), Encoding.at (d9 / 4 % 32),
        Encoding.at (d9 % 4 * 8 + d10 / 32 % 8), Encoding.at (d10 % 32),
        Encoding.at (d11 / 8 % 32), Encoding.at (d11 % 8 * 4 + d12 / 64 % 4),
        Encoding.at (d12 / 2 % 32), Encoding.at (d12 % 2 * 16 + d13 / 16 % 16),
        Encoding.at (d13 % 16 * 2 + d14 / 128 % 2), Encoding.at (d14 / 4 % 32),
        Encoding.at (d14 % 4 * 8 + d15 / 32 % 8), Encoding.at (d15 % 32),
        NUL ] := by
  simp only [ulid_to_string, ulid.get, h, List.getD_cons_zero, List.getD_cons_succ]
  simp only [and_1F, and_0F, and_07, and_03, and_01, and_E0_shr, and_F8_shr, and_C0_shr,
    and_3E_shr, and_F0_shr, and_80_shr, and_7C_shr]
  simp (disch := omega) only [Nat.shiftLeft_eq, Nat.reducePow, lor_2, lor_4, lor_8, lor_16]

theorem decodeULIDString_ok (s : List Char) (c : Nat → Nat)
    (h : ∀ i, i < 26 → decodeULIDChar (charAt s i) = .ok (c i)) :
    decodeULIDString s = .ok ⟨store 16
      [ (c 0 <<< 5) ||| c 1,
        (c 2 <<< 3) ||| (c 3 >>> 2),
        (c 3 <<< 6) ||| (c 4 <<< 1) ||| (c 5 >>> 4),
        (c 5 <<< 4) ||| (c 6 >>> 1),
        (c 6 <<< 7) ||| (c 7 <<< 2) ||| (c 8 >>> 3),
        (c 8 <<< 5) ||| c 9,
        (c 10 <<< 3) ||| (c 11 >>> 2),
        (c 11 <<< 6) ||| (c 12 <<< 1) ||| (c 13 >>> 4),
        (c 13 <<< 4) ||| (c 14 >>> 1),
        (c 14 <<< 7) ||| (c 15 <<< 2) ||| (c 16 >>> 3),
        (c 16 <<< 5) ||| c 17,
        (c 18 <<< 3) ||| (c 19 >>> 2),
        (c 19 <<< 6) ||| (c 20 <<< 1) ||| (c 21 >>> 4),
        (c 21 <<< 4) ||| (c 22 >>> 1),
        (c 22 <<< 7) ||| (c 23 <<< 2) ||| (c 24 >>> 3),
        (c 24 <<< 5) ||| c 25 ] rfl⟩ := by
  simp only [decodeULIDString, h 0 (by decide), h 1 (by decide), h 2 (by decide),
    h 3 (by decide), h 4 (by decide), h 5 (by decide), h 6 (by decide), h 7 (by decide),
    h 8 (by decide), h 9 (by decide), h 10 (by decide), h 11 (by decide), h 12 (by decide),
    h 13 (by decide), h 14 (by decide), h 15 (by decide), h 16 (by decide), h 17 (by decide),
    h 18 (by decide), h 19 (by decide), h 20 (by decide), h 21 (by decide), h 22 (by decide),
    h 23 (by decide), h 24 (by decide), h 25 (by decide)]
  rfl

theorem decodeULIDChar_cases (c : Char) :
    (∃ n, decodeULIDChar c = .ok n) ∨ decodeULIDChar c = .error .invalid_character := by
  unfold decodeULIDChar
  split
  · exact Or.inr rfl
  · exact Or.inl ⟨_, rfl⟩

theorem decodeULIDString_cases (s : List Char) :
    decodeULIDString s = .error .invalid_character ∨
      ∀ i, i < 26 → ∃ n, decodeULIDChar (charAt s i) = .ok n := by
  unfold decodeULIDString
  rcases decodeULIDChar_cases (charAt s 0) with ⟨n0, h0⟩ | h0
  swap
  · exact Or.inl (by simp only [h0]; rfl)
  simp only [h0]
  rcases decodeULIDChar_cases (charAt s 1) with ⟨n1, h1⟩ | h1
  swap
  · exact Or.inl (by simp only [h1]; rfl)
  simp only [h1]
  rcases decodeULIDChar_cases (charAt s 2) with ⟨n2, h2⟩ | h2
  swap
  · exact Or.inl (by simp only [h2]; rfl)
  simp only [h2]
  rcases decodeULIDChar_cases (charAt s 3) with ⟨n3, h3⟩ | h3
  swap
  · exact Or.inl (by simp only [h3]; rfl)
  simp only [h3]
  rcases decodeULIDChar_cases (charAt s 4) with ⟨n4, h4⟩ | h4
  swap
  · exact Or.inl (by simp only [h4]; rfl)
  simp only [h4]
  rcases decodeULIDChar_cases (charAt s 5) with ⟨n5, h5⟩ | h5
  swap
  · exact Or.inl (by simp only [h5]; rfl)
  simp only [h5]
  rcases decodeULIDChar_cases (charAt s 6) with ⟨n6, h6⟩ | h6
  swap
  · exact Or.inl (by simp only [h6]; rfl)
  simp only [h6]
  rcases decodeULIDChar_cases (charAt s 7) with ⟨n7, h7⟩ | h7
  swap
  · exact Or.inl (by simp only [h7]; rfl)
  simp only [h7]
  rcases decodeULIDChar_cases (charAt s 8) with ⟨n8, h8⟩ | h8
  swap
  · exact Or.inl (by simp only [h8]; rfl)
  simp only [h8]
  rcases decodeULIDChar_cases (charAt s 9) with ⟨n9, h9⟩ | h9
  swap
  · exact Or.inl (by simp only [h9]; rfl)
  simp only [h9]
  rcases decodeULIDChar_cases (charAt s 10) with ⟨n10, h10⟩ | h10
  swap
  · exact Or.inl (by simp only [h10]; rfl)
  simp only [h10]
  rcases decodeULIDChar_cases (charAt s 11) with ⟨n11, h11⟩ | h11
  swap
  · exact Or.inl (by simp only [h11]; rfl)
  simp only [h11]
  rcases decodeULIDChar_cases (charAt s 12) with ⟨n12, h12⟩ | h12
  swap
  · exact Or.inl (by simp only [h12]; rfl)
  simp only [h12]
  rcases decodeULIDChar_cases (charAt s 13) with ⟨n13, h13⟩ | h13
  swap
  · exact Or.inl (by simp only [h13]; rfl)
  simp only [h13]
  rcases decodeULIDChar_cases (charAt s 14) with ⟨n14, h14⟩ | h14
  swap
  · exact Or.inl (by simp only [h14]; rfl)
  simp only [h14]
  rcases decodeULIDChar_cases (charAt s 15) with ⟨n15, h15⟩ | h15
  swap
  · exact Or.inl (by simp only [h15]; rfl)
  simp only [h15]
  rcases decodeULIDChar_cases (charAt s 16) with ⟨n16, h16⟩ | h16
  swap
  · exact Or.inl (by simp only [h16]; rfl)
  simp only [h16]
  rcases decodeULIDChar_cases (charAt s 17) with ⟨n17, h17⟩ | h17
  swap
  · exact Or.inl (by simp only [h17]; rfl)
  simp only [h17]
  rcases decodeULIDChar_cases (charAt s 18) with ⟨n18, h18⟩ | h18
  swap
  · exact Or.inl (by simp only [h18]; rfl)
  simp only [h18]
  rcases decodeULIDChar_cases (charAt s 19) with ⟨n19, h19⟩ | h19
  swap
  · exact Or.inl (by simp only [h19]; rfl)
  simp only [h19]
  rcases decodeULIDChar_cases (charAt s 20) with ⟨n20, h20⟩ | h20
  swap
  · exact Or.inl (by simp only [h20]; rfl)
  simp only [h20]
  rcases decodeULIDChar_cases (charAt s 21) with ⟨n21, h21⟩ | h21
  swap
  · exact Or.inl (by simp only [h21]; rfl)
  simp only [h21]
  rcases decodeULIDChar_cases (charAt s 22) with ⟨n22, h22⟩ | h22
  swap
  · exact Or.inl (by simp only [h22]; rfl)
  simp only [h22]
  rcases decodeULIDChar_cases (charAt s 23) with ⟨n23, h23⟩ | h23
  swap
  · exact Or.inl (by simp only [h23]; rfl)
  simp only [h23]
  rcases decodeULIDChar_cases (charAt s 24) with ⟨n24, h24⟩ | h24
  swap
  · exact Or.inl (by simp only [h24]; rfl)
  simp only [h24]
  rcases decodeULIDChar_cases (charAt s 25) with ⟨n25, h25⟩ | h25
  swap
  · exact Or.inl (by simp only [h25]; rfl)
  simp only [h25]
  refine Or.inr (fun i hi => ?_)
  interval_cases i
  · exact ⟨n0, h0⟩
  · exact ⟨n1, h1⟩
  · exact ⟨n2, h2⟩
  · exact ⟨n3, h3⟩
  · exact ⟨n4, h4⟩
  · exact ⟨n5, h5⟩
  · exact ⟨n6, h6⟩
  · exact ⟨n7, h7⟩
  · exact ⟨n8, h8⟩
  · exact ⟨n9, h9⟩
  · exact ⟨n10, h10⟩
  · exact ⟨n11, h11⟩
  · exact ⟨n12, h12⟩
  · exact ⟨n13, h13⟩
  · exact ⟨n14, h14⟩
  · exact ⟨n15, h15⟩
  · exact ⟨n16, h16⟩
  · exact ⟨n17, h17⟩
  · exact ⟨n18, h18⟩
  · exact ⟨n19, h19⟩
  · exact ⟨n20, h20⟩
  · exact ⟨n21, h21⟩
  · exact ⟨n22, h22⟩
  · exact ⟨n23, h23⟩
  · exact ⟨n24, h24⟩
  · exact ⟨n25, h25⟩

theorem pack_5_0 (a b : Nat) (hb : b < 32) : (a <<< 5) ||| b = a * 32 + b := by
  simp (disch := omega) only [Nat.shiftLeft_eq, Nat.reducePow, lor_32]

theorem pack_3_2 (a b : Nat) (hb : b < 32) : (a <<< 3) ||| (b >>> 2) = a * 8 + b / 4 := by
  simp (disch := omega) only [Nat.shiftLeft_eq, Nat.shiftRight_eq_div_pow, Nat.reducePow, lor_8]

theorem pack_6_1_4 (a b c : Nat) (hb : b < 32) (hc : c < 32) :
    (a <<< 6) ||| (b <<< 1) ||| (c >>> 4) = a * 64 + b * 2 + c / 16 := by
  simp (disch := omega) only [Nat.shiftLeft_eq, Nat.shiftRight_eq_div_pow, Nat.reducePow,
    lor_64, lor_2]

theorem pack_4_1 (a b : Nat) (hb : b < 32) : (a <<< 4) ||| (b >>> 1) = a * 16 + b / 2 := by
  simp (disch := omega) only [Nat.shiftLeft_eq, Nat.shiftRight_eq_div_pow, Nat.reducePow, lor_16]

theorem pack_7_2_3 (a b c : Nat) (hb : b < 32) (hc : c < 32) :
    (a <<< 7) ||| (b <<< 2) ||| (c >>> 3) = a * 128 + b * 4 + c / 8 := by
  simp (disch := omega) only [Nat.shiftLeft_eq, Nat.shiftRight_eq_div_pow, Nat.reducePow,
    lor_128, lor_4]

theorem strlen_cons_at (i : Nat) (cs : List Char) (h : i < 32) :
    strlen (Encoding.at i :: cs) = strlen cs + 1 := by
  rw [strlen, if_neg (Encoding.at_ne_NUL i h)]

theorem cstr_cons_at (i : Nat) (cs : List Char) (h : i < 32) :
    cstr (Encoding.at i :: cs) = Encoding.at i :: cstr cs := by
  rw [cstr, if_neg (Encoding.at_ne_NUL i h)]

theorem cstr_NUL : cstr [NUL] = [] := rfl

theorem strlen_ulid_to_string (v : ulid) : strlen (ulid_to_string v) = 26 := by
  obtain ⟨d0, d1, d2, d3, d4, d5, d6, d7, d8, d9, d10, d11, d12, d13, d14, d15, hb,
    ⟨h0, h1, h2, h3, h4, h5, h6, h7⟩, ⟨h8, h9, h10, h11, h12, h13, h14, h15⟩⟩ := v.bytes_eq
  rw [ulid_to_string_eq v _ _ _ _ _ _ _ _ _ _ _ _ _ _ _ _ hb]
  iterate 26 rw [strlen_cons_at _ _ (by omega)]
  rfl

theorem unpack_first (a : Nat) (ha : a < 256) :
    (((a / 32 % 8) <<< 5) ||| (a % 32)) % 256 = a := by
  rw [pack_5_0 _ _ (by omega)]; omega

theorem unpack_3_2 (a b : Nat) (ha : a < 256) :
    (((a / 8 % 32) <<< 3) ||| ((a % 8 * 4 + b / 64 % 4) >>> 2)) % 256 = a := by
  rw [pack_3_2 _ _ (by omega)]; omega

theorem unpack_6_1_4 (a b c : Nat) (hb : b < 256) :
    (((a % 8 * 4 + b / 64 % 4) <<< 6) ||| ((b / 2 % 32) <<< 1) |||
      ((b % 2 * 16 + c / 16 % 16) >>> 4)) % 256 = b := by
  rw [pack_6_1_4 _ _ _ (by omega) (by omega)]; omega

theorem unpack_4_1 (b c d : Nat) (hc : c < 256) :
    (((b % 2 * 16 + c / 16 % 16) <<< 4) ||| ((c % 16 * 2 + d / 128 % 2) >>> 1)) % 256 = c := by
  rw [pack_4_1 _ _ (by omega)]; omega

theorem unpack_7_2_3 (c d e : Nat) (hd : d < 256) :
    (((c % 16 * 2 + d / 128 % 2) <<< 7) ||| ((d / 4 % 32) <<< 2) |||
      ((d % 4 * 8 + e / 32 % 8) >>> 3)) % 256 = d := by
  rw [pack_7_2_3 _ _ _ (by omega) (by omega)]; omega

theorem unpack_5_0 (d e : Nat) (he : e < 256) :
    (((d % 4 * 8 + e / 32 % 8) <<< 5) ||| (e % 32)) % 256 = e := by
  rw [pack_5_0 _ _ (by omega)]; omega

theorem decodeULIDString_ulid_to_string (v : ulid) :
    decodeULIDString (ulid_to_string v) = .ok v := by
  obtain ⟨d0, d1, d2, d3, d4, d5, d6, d7, d8, d9, d10, d11, d12, d13, d14, d15, hb,
    ⟨h0, h1, h2, h3, h4, h5, h6, h7⟩, ⟨h8, h9, h10, h11, h12, h13, h14, h15⟩⟩ := v.bytes_eq
  have hdec := decodeULIDString_ok (ulid_to_string v)
    (fun i => [d0 / 32 % 8, d0 % 32, d1 / 8 % 32, d1 % 8 * 4 + d2 / 64 % 4, d2 / 2 % 32,
      d2 % 2 * 16 + d3 / 16 % 16, d3 % 16 * 2 + d4 / 128 % 2, d4 / 4 % 32,
      d4 % 4 * 8 + d5 / 32 % 8, d5 % 32, d6 / 8 % 32, d6 % 8 * 4 + d7 / 64 % 4, d7 / 2 % 32,
      d7 % 2 * 16 + d8 / 16 % 16, d8 % 16 * 2 + d9 / 128 % 2, d9 / 4 % 32,
      d9 % 4 * 8 + d10 / 32 % 8, d10 % 32, d11 / 8 % 32, d11 % 8 * 4 + d12 / 64 % 4,
      d12 / 2 % 32, d12 % 2 * 16 + d13 / 16 % 16, d13 % 16 * 2 + d14 / 128 % 2, d14 / 4 % 32,
      d14 % 4 * 8 + d15 / 32 % 8, d15 % 32].getD i 0)
    (by
      intro i hi
      rw [ulid_to_string_eq v _ _ _ _ _ _ _ _ _ _ _ _ _ _ _ _ hb]
      clear hb h0 h1 h2 h3 h4 h5 h6 h7 h8 h9 h10 h11 h12 h13 h14 h15
      interval_cases i <;>
        simp only [charAt, List.getD_cons_zero, List.getD_cons_succ] <;>
        exact decodeULIDChar_at _ (by omega))
  rw [hdec]
  refine congrArg Except.ok (ulid.eq_of_bytes ?_)
  simp only [store, hb, List.map, List.getD_cons_zero, List.getD_cons_succ]
  rw [unpack_first d0 h0, unpack_3_2 d1 d2 h1, unpack_6_1_4 d1 d2 d3 h2, unpack_4_1 d2 d3 d4 h3,
    unpack_7_2_3 d3 d4 d5 h4, unpack_5_0 d4 d5 h5,
    unpack_3_2 d6 d7 h6, unpack_6_1_4 d6 d7 d8 h7, unpack_4_1 d7 d8 d9 h8,
    unpack_7_2_3 d8 d9 d10 h9, unpack_5_0 d9 d10 h10,
    unpack_3_2 d11 d12 h11, unpack_6_1_4 d11 d12 d13 h12, unpack_4_1 d12 d13 d14 h13,
    unpack_7_2_3 d13 d14 d15 h14, unpack_5_0 d14 d15 h15]

/-- Claim C1. Parsing the text produced by formatting returns the value unchanged:
`ulid_in (ulid_out v)` succeeds and yields `v`, all sixteen bytes. -/
theorem ulid_in_ulid_out (v : ulid) : ulid_in (ulid_out v) = .ok v := by
  rw [ulid_in, ulid_out, if_neg (not_not.mpr (strlen_ulid_to_string v))]
  exact decodeULIDString_ulid_to_string v

theorem list26 (s : List Char) (h : s.length = 26) :
    s = (List.range 26).map (charAt s) := by
  match s, h with
  | [_, _, _, _, _, _, _, _, _, _, _, _, _, _, _, _, _, _, _, _, _, _, _, _, _, _], _ => rfl

theorem charAt_mem (s : List Char) (i : Nat) (h : i < s.length) : charAt s i ∈ s := by
  rw [charAt, List.getD_eq_getElem s NUL h]
  exact List.getElem_mem h

theorem decoded_bytes (c : Nat → Nat) (h : ∀ i, i < 26 → c i < 32) :
    (store 16
      [ (c 0 <<< 5) ||| c 1,
        (c 2 <<< 3) ||| (c 3 >>> 2),
        (c 3 <<< 6) ||| (c 4 <<< 1) ||| (c 5 >>> 4),
        (c 5 <<< 4) ||| (c 6 >>> 1),
        (c 6 <<< 7) ||| (c 7 <<< 2) ||| (c 8 >>> 3),
        (c 8 <<< 5) ||| c 9,
        (c 10 <<< 3) ||| (c 11 >>> 2),
        (c 11 <<< 6) ||| (c 12 <<< 1) ||| (c 13 >>> 4),
        (c 13 <<< 4) ||| (c 14 >>> 1),
        (c 14 <<< 7) ||| (c 15 <<< 2) ||| (c 16 >>> 3),
        (c 16 <<< 5) ||| c 17,
        (c 18 <<< 3) ||| (c 19 >>> 2),
        (c 19 <<< 6) ||| (c 20 <<< 1) ||| (c 21 >>> 4),
        (c 21 <<< 4) ||| (c 22 >>> 1),
        (c 22 <<< 7) ||| (c 23 <<< 2) ||| (c 24 >>> 3),
        (c 24 <<< 5) ||| c 25 ] rfl).bytes =
      [ (c 0 * 32 + c 1) % 256,
        (c 2 * 8 + c 3 / 4) % 256,
        (c 3 * 64 + c 4 * 2 + c 5 / 16) % 256,
        (c 5 * 16 + c 6 / 2) % 256,
        (c 6 * 128 + c 7 * 4 + c 8 / 8) % 256,
        (c 8 * 32 + c 9) % 256,
        (c 10 * 8 + c 11 / 4) % 256,
        (c 11 * 64 + c 12 * 2 + c 13 / 16) % 256,
        (c 13 * 16 + c 14 / 2) % 256,
        (c 14 * 128 + c 15 * 4 + c 16 / 8) % 256,
        (c 16 * 32 + c 17) % 256,
        (c 18 * 8 + c 19 / 4) % 256,
        (c 19 * 64 + c 20 * 2 + c 21 / 16) % 256,
        (c 21 * 16 + c 22 / 2) % 256,
        (c 22 * 128 + c 23 * 4 + c 24 / 8) % 256,
        (c 24 * 32 + c 25) % 256 ] := by
  simp only [store, List.map]
  rw [pack_5_0 _ _ (h 1 (by decide)), pack_3_2 _ _ (h 3 (by decide)),
    pack_6_1_4 _ _ _ (h 4 (by decide)) (h 5 (by decide)), pack_4_1 _ _ (h 6 (by decide)),
    pack_7_2_3 _ _ _ (h 7 (by decide)) (h 8 (by decide)), pack_5_0 _ _ (h 9 (by decide)),
    pack_3_2 _ _ (h 11 (by decide)),
    pack_6_1_4 _ _ _ (h 12 (by decide)) (h 13 (by decide)), pack_4_1 _ _ (h 14 (by decide)),
    pack_7_2_3 _ _ _ (h 15 (by decide)) (h 16 (by decide)), pack_5_0 _ _ (h 17 (by decide)),
    pack_3_2 _ _ (h 19 (by decide)),
    pack_6_1_4 _ _ _ (h 20 (by decide)) (h 21 (by decide)), pack_4_1 _ _ (h 22 (by decide)),
    pack_7_2_3 _ _ _ (h 23 (by decide)) (h 24 (by decide)), pack_5_0 _ _ (h 25 (by decide))]

theorem repack_hi (a b : Nat) (hb : b < 32) : (a * 32 + b) % 256 / 32 % 8 = a % 8 := by
  omega

theorem repack_lo (a b : Nat) (hb : b < 32) : (a * 32 + b) % 256 % 32 = b := by
  omega

theorem repack_1 (a b : Nat) (ha : a < 32) (hb : b < 32) :
    (a * 8 + b / 4) % 256 / 8 % 32 = a := by
  omega

theorem repack_2 (a b c d : Nat) (hb : b < 32) (hc : c < 32) (hd : d < 32) :
    (a * 8 + b / 4) % 256 % 8 * 4 + (b * 64 + c * 2 + d / 16) % 256 / 64 % 4 = b := by
  omega

theorem repack_3 (b c d : Nat) (hc : c < 32) (hd : d < 32) :
    (b * 64 + c * 2 + d / 16) % 256 / 2 % 32 = c := by
  omega

theorem repack_4 (b c d e : Nat) (hc : c < 32) (hd : d < 32) (he : e < 32) :
    (b * 64 + c * 2 + d / 16) % 256 % 2 * 16 + (d * 16 + e / 2) % 256 / 16 % 16 = d := by
  omega

theorem repack_5 (d e f g : Nat) (he : e < 32) (hf : f < 32) (hg : g < 32) :
    (d * 16 + e / 2) % 256 % 16 * 2 + (e * 128 + f * 4 + g / 8) % 256 / 128 % 2 = e := by
  omega

theorem repack_6 (e f g : Nat) (hf : f < 32) (hg : g < 32) :
    (e * 128 + f * 4 + g / 8) % 256 / 4 % 32 = f := by
  omega

theorem repack_7 (e f g h : Nat) (hf : f < 32) (hg : g < 32) (hh : h < 32) :
    (e * 128 + f * 4 + g / 8) % 256 % 4 * 8 + (g * 32 + h) % 256 / 32 % 8 = g := by
  omega

theorem parse_format_indices (c : Nat → Nat) (h : ∀ i, i < 26 → c i < 32) :
    ∃ v, ulid_in
      [ Encoding.at (c 0), Encoding.at (c 1), Encoding.at (c 2), Encoding.at (c 3),
        Encoding.at (c 4), Encoding.at (c 5), Encoding.at (c 6), Encoding.at (c 7),
        Encoding.at (c 8), Encoding.at (c 9), Encoding.at (c 10), Encoding.at (c 11),
        Encoding.at (c 12), Encoding.at (c 13), Encoding.at (c 14), Encoding.at (c 15),
        Encoding.at (c 16), Encoding.at (c 17), Encoding.at (c 18), Encoding.at (c 19),
        Encoding.at (c 20), Encoding.at (c 21), Encoding.at (c 22), Encoding.at (c 23),
        Encoding.at (c 24), Encoding.at (c 25) ] = .ok v ∧
    cstr (ulid_out v) =
      [ Encoding.at (c 0 % 8), Encoding.at (c 1), Encoding.at (c 2), Encoding.at (c 3),
        Encoding.at (c 4), Encoding.at (c 5), Encoding.at (c 6), Encoding.at (c 7),
        Encoding.at (c 8), Encoding.at (c 9), Encoding.at (c 10), Encoding.at (c 11),
        Encoding.at (c 12), Encoding.at (c 13), Encoding.at (c 14), Encoding.at (c 15),
        Encoding.at (c 16), Encoding.at (c 17), Encoding.at (c 18), Encoding.at (c 19),
        Encoding.at (c 20), Encoding.at (c 21), Encoding.at (c 22), Encoding.at (c 23),
        Encoding.at (c 24), Encoding.at (c 25) ] := by
  have hlen : strlen
      [ Encoding.at (c 0), Encoding.at (c 1), Encoding.at (c 2), Encoding.at (c 3),
        Encoding.at (c 4), Encoding.at (c 5), Encoding.at (c 6), Encoding.at (c 7),
        Encoding.at (c 8), Encoding.at (c 9), Encoding.at (c 10), Encoding.at (c 11),
        Encoding.at (c 12), Encoding.at (c 13), Encoding.at (c 14), Encoding.at (c 15),
        Encoding.at (c 16), Encoding.at (c 17), Encoding.at (c 18), Encoding.at (c 19),
        Encoding.at (c 20), Encoding.at (c 21), Encoding.at (c 22), Encoding.at (c 23),
        Encoding.at (c 24), Encoding.at (c 25) ] = 26 := by
    rw [strlen_cons_at _ _ (h 0 (by decide)), strlen_cons_at _ _ (h 1 (by decide)),
      strlen_cons_at _ _ (h 2 (by decide)), strlen_cons_at _ _ (h 3 (by decide)),
      strlen_cons_at _ _ (h 4 (by decide)), strlen_cons_at _ _ (h 5 (by decide)),
      strlen_cons_at _ _ (h 6 (by decide)), strlen_cons_at _ _ (h 7 (by decide)),
      strlen_cons_at _ _ (h 8 (by decide)), strlen_cons_at _ _ (h 9 (by decide)),
      strlen_cons_at _ _ (h 10 (by decide)), strlen_cons_at _ _ (h 11 (by decide)),
      strlen_cons_at _ _ (h 12 (by decide)), strlen_cons_at _ _ (h 13 (by decide)),
      strlen_cons_at _ _ (h 14 (by decide)), strlen_cons_at _ _ (h 15 (by decide)),
      strlen_cons_at _ _ (h 16 (by decide)), strlen_cons_at _ _ (h 17 (by decide)),
      strlen_cons_at _ _ (h 18 (by decide)), strlen_cons_at _ _ (h 19 (by decide)),
      strlen_cons_at _ _ (h 20 (by decide)), strlen_cons_at _ _ (h 21 (by decide)),
      strlen_cons_at _ _ (h 22 (by decide)), strlen_cons_at _ _ (h 23 (by decide)),
      strlen_cons_at _ _ (h 24 (by decide)), strlen_cons_at _ _ (h 25 (by decide))]
    rfl
  have hdec := decodeULIDString_ok
      [ Encoding.at (c 0), Encoding.at (c 1), Encoding.at (c 2), Encoding.at (c 3),
        Encoding.at (c 4), Encoding.at (c 5), Encoding.at (c 6), Encoding.at (c 7),
        Encoding.at (c 8), Encoding.at (c 9), Encoding.at (c 10), Encoding.at (c 11),
        Encoding.at (c 12), Encoding.at (c 13), Encoding.at (c 14), Encoding.at (c 15),
        Encoding.at (c 16), Encoding.at (c 17), Encoding.at (c 18), Encoding.at (c 19),
        Encoding.at (c 20), Encoding.at (c 21), Encoding.at (c 22), Encoding.at (c 23),
        Encoding.at (c 24), Encoding.at (c 25) ] c
    (by
      intro i hi
      interval_cases i <;>
        simp only [charAt, List.getD_cons_zero, List.getD_cons_succ] <;>
        exact decodeULIDChar_at _ (h _ (by decide)))
  refine ⟨_, by rw [ulid_in, if_neg (not_not.mpr hlen), hdec], ?_⟩
  rw [ulid_out]
  refine (congrArg cstr
    (ulid_to_string_eq _ _ _ _ _ _ _ _ _ _ _ _ _ _ _ _ _ (decoded_bytes c h))).trans ?_
  rw [repack_hi (c 0) (c 1) (h 1 (by decide)),
    repack_lo (c 0) (c 1) (h 1 (by decide)),
    repack_1 (c 2) (c 3) (h 2 (by decide)) (h 3 (by decide)),
    repack_2 (c 2) (c 3) (c 4) (c 5) (h 3 (by decide)) (h 4 (by decide)) (h 5 (by decide)),
    repack_3 (c 3) (c 4) (c 5) (h 4 (by decide)) (h 5 (by decide)),
    repack_4 (c 3) (c 4) (c 5) (c 6) (h 4 (by decide)) (h 5 (by decide)) (h 6 (by decide)),
    repack_5 (c 5) (c 6) (c 7) (c 8) (h 6 (by decide)) (h 7 (by decide)) (h 8 (by decide)),
    repack_6 (c 6) (c 7) (c 8) (h 7 (by decide)) (h 8 (by decide)),
    repack_7 (c 6) (c 7) (c 8) (c 9) (h 7 (by decide)) (h 8 (by decide)) (h 9 (by decide)),
    repack_lo (c 8) (c 9) (h 9 (by decide)),
    repack_1 (c 10) (c 11) (h 10 (by decide)) (h 11 (by decide)),
    repack_2 (c 10) (c 11) (c 12) (c 13) (h 11 (by decide)) (h 12 (by decide)) (h 13 (by decide)),
    repack_3 (c 11) (c 12) (c 13) (h 12 (by decide)) (h 13 (by decide)),
    repack_4 (c 11) (c 12) (c 13) (c 14) (h 12 (by decide)) (h 13 (by decide)) (h 14 (by decide)),
    repack_5 (c 13) (c 14) (c 15) (c 16) (h 14 (by decide)) (h 15 (by decide)) (h 16 (by decide)),
    repack_6 (c 14) (c 15) (c 16) (h 15 (by decide)) (h 16 (by decide)),
    repack_7 (c 14) (c 15) (c 16) (c 17) (h 15 (by decide)) (h 16 (by decide)) (h 17 (by decide)),
    repack_lo (c 16) (c 17) (h 17 (by decide)),
    repack_1 (c 18) (c 19) (h 18 (by decide)) (h 19 (by decide)),
    repack_2 (c 18) (c 19) (c 20) (c 21) (h 19 (by decide)) (h 20 (by decide)) (h 21 (by decide)),
    repack_3 (c 19) (c 20) (c 21) (h 20 (by decide)) (h 21 (by decide)),
    repack_4 (c 19) (c 20) (c 21) (c 22) (h 20 (by decide)) (h 21 (by decide)) (h 22 (by decide)),
    repack_5 (c 21) (c 22) (c 23) (c 24) (h 22 (by decide)) (h 23 (by decide)) (h 24 (by decide)),
    repack_6 (c 22) (c 23) (c 24) (h 23 (by decide)) (h 24 (by decide)),
    repack_7 (c 22) (c 23) (c 24) (c 25) (h 23 (by decide)) (h 24 (by decide)) (h 25 (by decide)),
    repack_lo (c 24) (c 25) (h 25 (by decide))]
  rw [cstr_cons_at _ _ (Nat.lt_of_lt_of_le (Nat.mod_lt _ (by decide)) (by decide)),
    cstr_cons_at _ _ (h 1 (by decide)), cstr_cons_at _ _ (h 2 (by decide)),
    cstr_cons_at _ _ (h 3 (by decide)), cstr_cons_at _ _ (h 4 (by decide)),
    cstr_cons_at _ _ (h 5 (by decide)), cstr_cons_at _ _ (h 6 (by decide)),
    cstr_cons_at _ _ (h 7 (by decide)), cstr_cons_at _ _ (h 8 (by decide)),
    cstr_cons_at _ _ (h 9 (by decide)), cstr_cons_at _ _ (h 10 (by decide)),
    cstr_cons_at _ _ (h 11 (by decide)), cstr_cons_at _ _ (h 12 (by decide)),
    cstr_cons_at _ _ (h 13 (by decide)), cstr_cons_at _ _ (h 14 (by decide)),
    cstr_cons_at _ _ (h 15 (by decide)), cstr_cons_at _ _ (h 16 (by decide)),
    cstr_cons_at _ _ (h 17 (by decide)), cstr_cons_at _ _ (h 18 (by decide)),
    cstr_cons_at _ _ (h 19 (by decide)), cstr_cons_at _ _ (h 20 (by decide)),
    cstr_cons_at _ _ (h 21 (by decide)), cstr_cons_at _ _ (h 22 (by decide)),
    cstr_cons_at _ _ (h 23 (by decide)), cstr_cons_at _ _ (h 24 (by decide)),
    cstr_cons_at _ _ (h 25 (by decide)), cstr_NUL]

theorem Encoding.at_injective (a b : Nat) (ha : a < 32) (hb : b < 32)
    (h : Encoding.at a = Encoding.at b) : a = b := by
  have h1 := decodeULIDChar_at a ha
  rw [h, decodeULIDChar_at b hb] at h1
  exact (Except.ok.inj h1).symm

theorem alphabet_indices (s : List Char) (hlen : s.length = 26)
    (halpha : ∀ c ∈ s, inAlphabet c) :
    ∃ c : Nat → Nat, (∀ i, i < 26 → c i < 32) ∧ s = (List.range 26).map (fun i => Encoding.at (c i)) := by
  have key : ∀ i, ∃ n, i < 26 → n < 32 ∧ charAt s i = Encoding.at n := by
    intro i
    by_cases hi : i < 26
    · obtain ⟨n, hn, e⟩ := mem_Encoding _ (halpha _ (charAt_mem s i (by omega)))
      exact ⟨n, fun _ => ⟨hn, e⟩⟩
    · exact ⟨0, fun h => absurd h hi⟩
  choose c hc using key
  refine ⟨c, fun i hi => (hc i hi).1, ?_⟩
  conv_lhs => rw [list26 s hlen]
  apply List.map_congr_left
  intro i hi
  exact (hc i (List.mem_range.mp hi)).2

/-- Claim C2, as amended. For a string of exactly 26 alphabet characters whose first character is
one of `0`..`7`, parsing succeeds and formatting the parsed value gives the string back. -/
theorem ulid_out_ulid_in (s : List Char) (hlen : s.length = 26)
    (halpha : ∀ c ∈ s, inAlphabet c)
    (hfirst : charAt s 0 ∈ ['0', '1', '2', '3', '4', '5', '6', '7']) :
    ∃ v, ulid_in s = .ok v ∧ cstr (ulid_out v) = s := by
  obtain ⟨c, hc, hs⟩ := alphabet_indices s hlen halpha
  have h0 : c 0 < 8 := by
    have e : charAt s 0 = Encoding.at (c 0) := by rw [hs]; rfl
    rw [e] at hfirst
    have := hc 0 (by decide)
    simp only [List.mem_cons, List.mem_singleton, List.not_mem_nil, or_false] at hfirst
    rcases hfirst with h | h | h | h | h | h | h | h
    · rw [Encoding.at_injective (c 0) 0 this (by decide) h]; decide
    · rw [Encoding.at_injective (c 0) 1 this (by decide) h]; decide
    · rw [Encoding.at_injective (c 0) 2 this (by decide) h]; decide
    · rw [Encoding.at_injective (c 0) 3 this (by decide) h]; decide
    · rw [Encoding.at_injective (c 0) 4 this (by decide) h]; decide
    · rw [Encoding.at_injective (c 0) 5 this (by decide) h]; decide
    · rw [Encoding.at_injective (c 0) 6 this (by decide) h]; decide
    · rw [Encoding.at_injective (c 0) 7 this (by decide) h]; decide
  obtain ⟨v, hv, hout⟩ := parse_format_indices c hc
  rw [Nat.mod_eq_of_lt h0] at hout
  rw [hs]
  exact ⟨v, hv, hout⟩

/-- Witness for `ulid_out_ulid_in`: the largest text whose first character is below `8`. -/
theorem ulid_out_ulid_in_witness :
    maxText.length = 26 ∧ (∀ c ∈ maxText, inAlphabet c) ∧
      ∃ v, ulid_in maxText = .ok v ∧ cstr (ulid_out v) = maxText :=
  ⟨by decide, by decide, ulid_out_ulid_in maxText (by decide) (by decide) (by decide)⟩

/-- Claim C2, counterexample. The text `80000000000000000000000000` has 26 characters, all in
the alphabet; it parses, and the parsed value formats as `00000000000000000000000000`. -/
theorem ulid_out_ulid_in_overflow :
    overflowText.length = 26 ∧ (∀ c ∈ overflowText, inAlphabet c) ∧
      ∃ v, ulid_in overflowText = .ok v ∧ cstr (ulid_out v) = zeroText ∧
        cstr (ulid_out v) ≠ overflowText :=
  ⟨by decide, by decide, _, rfl, rfl, by decide⟩

/-! ## Length and characters of a C string -/

theorem strlen_eq_length_cstr (s : List Char) : strlen s = (cstr s).length := by
  induction s with
  | nil => rfl
  | cons c cs ih =>
    by_cases h : c = NUL
    · simp [strlen, cstr, h]
    · simp [strlen, cstr, h, ih]

theorem mem_cstr_iff (s : List Char) (c : Char) :
    c ∈ cstr s ↔ ∃ i, i < strlen s ∧ charAt s i = c := by
  induction s with
  | nil => simp [cstr, strlen]
  | cons x xs ih =>
    by_cases h : x = NUL
    · simp [strlen, cstr, h]
    · simp only [cstr, h, if_false, List.mem_cons, strlen, ih]
      constructor
      · rintro (rfl | ⟨i, hi, rfl⟩)
        · exact ⟨0, by omega, rfl⟩
        · exact ⟨i + 1, by omega, rfl⟩
      · rintro ⟨i, hi, rfl⟩
        cases i with
        | zero => exact Or.inl rfl
        | succ j => exact Or.inr ⟨j, by omega, rfl⟩

theorem charAt_ne_NUL (s : List Char) (i : Nat) (h : i < strlen s) : charAt s i ≠ NUL := by
  induction s generalizing i with
  | nil => simp [strlen] at h
  | cons x xs ih =>
    by_cases hx : x = NUL
    · simp [strlen, hx] at h
    · cases i with
      | zero => exact hx
      | succ j =>
        simp only [strlen, hx, if_false] at h
        exact ih j (by omega)

theorem decodeULIDString_alphabet (s : List Char)
    (h : ∀ i, i < 26 → inAlphabet (charAt s i)) : ∃ v, decodeULIDString s = .ok v := by
  have key : ∀ i, ∃ n, i < 26 → decodeULIDChar (charAt s i) = .ok n := by
    intro i
    by_cases hi : i < 26
    · obtain ⟨n, hn, e⟩ := mem_Encoding _ (h i hi)
      exact ⟨n, fun _ => by rw [e]; exact decodeULIDChar_at n hn⟩
    · exact ⟨0, fun h => absurd h hi⟩
  choose c hc using key
  exact ⟨_, decodeULIDString_ok s c hc⟩

theorem decodeULIDString_invalid (s : List Char) (i : Nat) (hi : i < 26)
    (h : ¬ inAlphabet (charAt s i)) (h0 : charAt s i ≠ NUL) :
    decodeULIDString s = .error .invalid_character := by
  rcases decodeULIDString_cases s with e | hall
  · exact e
  · obtain ⟨n, hn⟩ := hall i hi
    rw [decodeULIDChar_not_mem _ h h0] at hn
    exact absurd hn (by simp)

/-- Claim C3. `ulid_in` succeeds exactly when the input string has 26 characters, all of them in
the alphabet.  A string of another length raises "incorrect size", whatever its characters; a
string of 26 characters with one outside the alphabet raises "invalid character"; the
characters `a`, `I`, `L`, `O`, `U` are outside the alphabet.  A raised error is a result
without a value. -/
theorem ulid_in_ok_iff (s : List Char) :
    ((∃ v, ulid_in s = .ok v) ↔ ((cstr s).length = 26 ∧ ∀ c ∈ cstr s, inAlphabet c)) ∧
    ((cstr s).length ≠ 26 → ulid_in s = .error .incorrect_size) ∧
    ((cstr s).length = 26 → (∃ c ∈ cstr s, ¬ inAlphabet c) →
      ulid_in s = .error .invalid_character) ∧
    (¬ inAlphabet 'a' ∧ ¬ inAlphabet 'I' ∧ ¬ inAlphabet 'L' ∧ ¬ inAlphabet 'O' ∧
      ¬ inAlphabet 'U') := by
  have hlen := strlen_eq_length_cstr s
  have hsize : (cstr s).length ≠ 26 → ulid_in s = .error .incorrect_size := by
    intro h
    rw [ulid_in, if_pos (by rw [hlen]; exact h)]
  have hbad : (cstr s).length = 26 → (∃ c ∈ cstr s, ¬ inAlphabet c) →
      ulid_in s = .error .invalid_character := by
    rintro h ⟨c, hc, hna⟩
    obtain ⟨i, hi, rfl⟩ := (mem_cstr_iff s c).mp hc
    rw [ulid_in, if_neg (by rw [hlen]; exact not_not.mpr h)]
    exact decodeULIDString_invalid s i (by omega) hna (charAt_ne_NUL s i hi)
  refine ⟨⟨?_, ?_⟩, hsize, hbad, by decide, by decide, by decide, by decide, by decide⟩
  · rintro ⟨v, hv⟩
    by_cases h26 : (cstr s).length = 26
    · refine ⟨h26, ?_⟩
      by_contra hex
      push_neg at hex
      rw [hbad h26 hex] at hv
      exact absurd hv (by simp)
    · rw [hsize h26] at hv
      exact absurd hv (by simp)
  · rintro ⟨h26, hall⟩
    rw [ulid_in, if_neg (by rw [hlen]; exact not_not.mpr h26)]
    exact decodeULIDString_alphabet s
      (fun i hi => hall _ ((mem_cstr_iff s _).mpr ⟨i, by omega, rfl⟩))

/-! ## Numbers written in a base, and lexicographic order -/

theorem beVal_append (b : Nat) (l r : List Nat) :
    beVal b (l ++ r) = beVal b l * b ^ r.length + beVal b r := by
  induction l with
  | nil => simp [beVal]
  | cons d ds ih =>
    show d * b ^ (ds ++ r).length + beVal b (ds ++ r) =
      (d * b ^ ds.length + beVal b ds) * b ^ r.length + beVal b r
    rw [ih, List.length_append, Nat.pow_add]
    ring

theorem beVal_lt_pow (b : Nat) (l : List Nat) (h : ∀ x ∈ l, x < b) :
    beVal b l < b ^ l.length := by
  induction l with
  | nil => simp [beVal]
  | cons d ds ih =>
    have hd : d < b := h d (List.mem_cons_self _ _)
    have hds := ih (fun x hx => h x (List.mem_cons_of_mem _ hx))
    have hmul := Nat.mul_le_mul_right (b ^ ds.length) (show d + 1 ≤ b from hd)
    rw [Nat.add_mul, Nat.one_mul] at hmul
    simp only [beVal, List.length_cons, Nat.pow_succ]
    rw [Nat.mul_comm (b ^ ds.length) b]
    omega

theorem digit_lt_iff (P a c x y : Nat) (hx : x < P) (hy : y < P) :
    a * P + x < c * P + y ↔ a < c ∨ (a = c ∧ x < y) := by
  rcases Nat.lt_trichotomy a c with h | h | h
  · have hmul := Nat.mul_le_mul_right P (show a + 1 ≤ c from h)
    rw [Nat.add_mul, Nat.one_mul] at hmul
    constructor
    · intro _; exact Or.inl h
    · intro _; omega
  · subst h
    constructor
    · intro h1; exact Or.inr ⟨rfl, by omega⟩
    · rintro (h1 | ⟨_, h1⟩)
      · exact absurd h1 (Nat.lt_irrefl _)
      · omega
  · have hmul := Nat.mul_le_mul_right P (show c + 1 ≤ a from h)
    rw [Nat.add_mul, Nat.one_mul] at hmul
    constructor
    · intro _; omega
    · rintro (h1 | ⟨h1, _⟩) <;> omega

theorem digit_eq_iff (P a c x y : Nat) (hx : x < P) (hy : y < P) :
    a * P + x = c * P + y ↔ a = c ∧ x = y := by
  constructor
  · intro h
    have h1 := digit_lt_iff P a c x y hx hy
    have h2 := digit_lt_iff P c a y x hy hx
    have n1 : ¬ (a < c ∨ (a = c ∧ x < y)) := fun hh => by have := h1.mpr hh; omega
    have n2 : ¬ (c < a ∨ (c = a ∧ y < x)) := fun hh => by have := h2.mpr hh; omega
    omega
  · rintro ⟨rfl, rfl⟩; rfl

theorem beVal_lt_iff_lex (b : Nat) (l r : List Nat) (hlen : l.length = r.length)
    (hl : ∀ x ∈ l, x < b) (hr : ∀ x ∈ r, x < b) :
    beVal b l < beVal b r ↔ List.Lex (fun x y : Nat => x < y) l r := by
  induction l generalizing r with
  | nil =>
    cases r with
    | nil => simp [beVal]
    | cons c cs => simp at hlen
  | cons a as ih =>
    cases r with
    | nil => simp at hlen
    | cons c cs =>
      have hlen' : as.length = cs.length := by simpa using hlen
      have ha := beVal_lt_pow b as (fun x hx => hl x (List.mem_cons_of_mem _ hx))
      have hc := beVal_lt_pow b cs (fun x hx => hr x (List.mem_cons_of_mem _ hx))
      have ih' := ih cs hlen' (fun x hx => hl x (List.mem_cons_of_mem _ hx))
        (fun x hx => hr x (List.mem_cons_of_mem _ hx))
      rw [hlen'] at ha
      simp only [beVal]
      rw [hlen', digit_lt_iff _ _ _ _ _ ha hc, ih']
      constructor
      · rintro (h | ⟨rfl, h⟩)
        · exact List.Lex.rel h
        · exact List.Lex.cons h
      · intro h
        cases h with
        | cons h => exact Or.inr ⟨rfl, h⟩
        | rel h => exact Or.inl h

theorem beVal_eq_iff (b : Nat) (l r : List Nat) (hlen : l.length = r.length)
    (hl : ∀ x ∈ l, x < b) (hr : ∀ x ∈ r, x < b) :
    beVal b l = beVal b r ↔ l = r := by
  induction l generalizing r with
  | nil =>
    cases r with
    | nil => simp
    | cons c cs => simp at hlen
  | cons a as ih =>
    cases r with
    | nil => simp at hlen
    | cons c cs =>
      have hlen' : as.length = cs.length := by simpa using hlen
      have ha := beVal_lt_pow b as (fun x hx => hl x (List.mem_cons_of_mem _ hx))
      have hc := beVal_lt_pow b cs (fun x hx => hr x (List.mem_cons_of_mem _ hx))
      have ih' := ih cs hlen' (fun x hx => hl x (List.mem_cons_of_mem _ hx))
        (fun x hx => hr x (List.mem_cons_of_mem _ hx))
      rw [hlen'] at ha
      simp only [beVal]
      rw [hlen', digit_eq_iff _ _ _ _ _ ha hc, ih', List.cons.injEq]

/-! ## `memcmp` -/

theorem memcmp_neg (l r : List Nat) (n : Nat) : memcmp l r n = -memcmp r l n := by
  induction l generalizing r n with
  | nil => cases r <;> cases n <;> simp [memcmp]
  | cons a as ih =>
    cases r with
    | nil => cases n <;> simp [memcmp]
    | cons c cs =>
      cases n with
      | zero => simp [memcmp]
      | succ m =>
        by_cases h : a = c
        · subst h
          simp [memcmp, ih cs m]
        · have h' : ¬ c = a := fun e => h e.symm
          simp [memcmp, h, h']

theorem memcmp_lt_zero_iff (l r : List Nat) (hlen : l.length = r.length) :
    memcmp l r l.length < 0 ↔ List.Lex (fun x y : Nat => x < y) l r := by
  induction l generalizing r with
  | nil =>
    cases r with
    | nil => simp [memcmp]
    | cons c cs => simp at hlen
  | cons a as ih =>
    cases r with
    | nil => simp at hlen
    | cons c cs =>
      have hlen' : as.length = cs.length := by simpa using hlen
      have ih' := ih cs hlen'
      by_cases h : a = c
      · subst h
        simp only [List.length_cons, memcmp, if_true, ih']
        constructor
        · intro hh; exact List.Lex.cons hh
        · intro hh
          cases hh with
          | cons hh => exact hh
          | rel hh => exact absurd hh (Nat.lt_irrefl _)
      · simp only [List.length_cons, memcmp, h, if_false]
        constructor
        · intro hh; exact List.Lex.rel (by omega)
        · intro hh
          cases hh with
          | cons hh => exact absurd rfl h
          | rel hh => omega

theorem memcmp_eq_zero_iff (l r : List Nat) (hlen : l.length = r.length) :
    memcmp l r l.length = 0 ↔ l = r := by
  induction l generalizing r with
  | nil =>
    cases r with
    | nil => simp [memcmp]
    | cons c cs => simp at hlen
  | cons a as ih =>
    cases r with
    | nil => simp at hlen
    | cons c cs =>
      have hlen' : as.length = cs.length := by simpa using hlen
      by_cases h : a = c
      · subst h
        simp only [List.length_cons, memcmp, if_true, ih cs hlen', List.cons.injEq, true_and]
      · simp only [List.length_cons, memcmp, h, if_false, List.cons.injEq, false_and, iff_false]
        omega

/-! ## Comparison of values -/

theorem ulid.length_bytes (u : ulid) : u.data.bytes.length = 16 := u.data.size_eq

theorem ulid_cmp_eq (a b : ulid) :
    ulid_cmp a b = memcmp a.data.bytes b.data.bytes a.data.bytes.length := by
  rw [ulid_cmp, a.length_bytes]; rfl

theorem ulid.toNat_lt (u : ulid) : u.toNat < 2 ^ 128 := by
  have h := beVal_lt_pow 256 u.data.bytes u.data.byte_lt
  rw [u.length_bytes] at h
  exact h

theorem ulid_cmp_lt_zero_iff (a b : ulid) : ulid_cmp a b < 0 ↔ a.toNat < b.toNat := by
  have hlen : a.data.bytes.length = b.data.bytes.length := by
    rw [a.length_bytes, b.length_bytes]
  rw [ulid_cmp_eq, memcmp_lt_zero_iff _ _ hlen, ulid.toNat, ulid.toNat,
    beVal_lt_iff_lex 256 _ _ hlen a.data.byte_lt b.data.byte_lt]

theorem ulid_cmp_eq_zero_iff (a b : ulid) : ulid_cmp a b = 0 ↔ a = b := by
  have hlen : a.data.bytes.length = b.data.bytes.length := by
    rw [a.length_bytes, b.length_bytes]
  rw [ulid_cmp_eq, memcmp_eq_zero_iff _ _ hlen]
  exact ⟨ulid.eq_of_bytes, fun h => by rw [h]⟩

theorem ulid.toNat_eq_iff (a b : ulid) : a.toNat = b.toNat ↔ a = b := by
  have hlen : a.data.bytes.length = b.data.bytes.length := by
    rw [a.length_bytes, b.length_bytes]
  rw [ulid.toNat, ulid.toNat, beVal_eq_iff 256 _ _ hlen a.data.byte_lt b.data.byte_lt]
  exact ⟨ulid.eq_of_bytes, fun h => by rw [h]⟩

theorem ulid_cmp_pos_iff (a b : ulid) : 0 < ulid_cmp a b ↔ b.toNat < a.toNat := by
  have h : ulid_cmp a b = -ulid_cmp b a := memcmp_neg _ _ _
  rw [← ulid_cmp_lt_zero_iff b a, h]
  omega

/-- Claim C4. The sign of `ulid_cmp a b` is the sign of `N(a) - N(b)`, where `N` reads the
sixteen bytes as one big-endian unsigned integer below `2 ^ 128`: the result is negative
exactly when `N(a) < N(b)`, zero exactly when `N(a) = N(b)`, positive exactly when
`N(a) > N(b)`. -/
theorem ulid_cmp_sign (a b : ulid) :
    (a.toNat < 2 ^ 128 ∧ b.toNat < 2 ^ 128) ∧
    Int.sign (ulid_cmp a b) = Int.sign ((a.toNat : Int) - (b.toNat : Int)) ∧
    (ulid_cmp a b < 0 ↔ a.toNat < b.toNat) ∧
    (ulid_cmp a b = 0 ↔ a.toNat = b.toNat) ∧
    (0 < ulid_cmp a b ↔ a.toNat > b.toNat) := by
  have hlt := ulid_cmp_lt_zero_iff a b
  have hpos := ulid_cmp_pos_iff a b
  have heq : ulid_cmp a b = 0 ↔ a.toNat = b.toNat := by
    rw [ulid_cmp_eq_zero_iff, ulid.toNat_eq_iff]
  refine ⟨⟨a.toNat_lt, b.toNat_lt⟩, ?_, hlt, heq, hpos⟩
  rcases Nat.lt_trichotomy a.toNat b.toNat with h | h | h
  · rw [Int.sign_eq_neg_one_of_neg (hlt.mpr h), Int.sign_eq_neg_one_of_neg (by omega)]
  · rw [heq.mpr h, h]; simp
  · rw [Int.sign_eq_one_of_pos (hpos.mpr h), Int.sign_eq_one_of_pos (by omega)]

/-- Claim C7. `ulid_lt` is a strict total order on values: it is irreflexive and transitive,
exactly one of `ulid_lt a b`, `ulid_eq a b`, `ulid_gt a b` holds for any two values, and
`ulid_cmp a b = 0` only for values with the same sixteen bytes.  It is total: `ulid_gt a b` is
`ulid_lt b a`, two different values are ordered one way or the other, and `ulid_lt a b` is
the order of the big-endian numbers. -/
theorem ulid_lt_strict_total_order :
    (∀ a : ulid, ulid_lt a a = false) ∧
    (∀ a b c : ulid, ulid_lt a b = true → ulid_lt b c = true → ulid_lt a c = true) ∧
    (∀ a b : ulid,
      (ulid_lt a b = true ∧ ulid_eq a b = false ∧ ulid_gt a b = false) ∨
      (ulid_lt a b = false ∧ ulid_eq a b = true ∧ ulid_gt a b = false) ∨
      (ulid_lt a b = false ∧ ulid_eq a b = false ∧ ulid_gt a b = true)) ∧
    (∀ a b : ulid, ulid_cmp a b = 0 → a.data.bytes = b.data.bytes) ∧
    (∀ a b : ulid, ulid_gt a b = ulid_lt b a) ∧
    (∀ a b : ulid, a ≠ b → ulid_lt a b = true ∨ ulid_lt b a = true) ∧
    (∀ a b : ulid, ulid_eq a b = true ↔ a = b) ∧
    (∀ a b : ulid, ulid_lt a b = true ↔ a.toNat < b.toNat) := by
  have lt_iff : ∀ a b : ulid, ulid_lt a b = true ↔ a.toNat < b.toNat := fun a b => by
    rw [ulid_lt, decide_eq_true_iff]; exact ulid_cmp_lt_zero_iff a b
  have gt_iff : ∀ a b : ulid, ulid_gt a b = true ↔ b.toNat < a.toNat := fun a b => by
    rw [ulid_gt, decide_eq_true_iff]; exact ulid_cmp_pos_iff a b
  have eq_iff : ∀ a b : ulid, ulid_eq a b = true ↔ a = b := fun a b => by
    rw [ulid_eq, decide_eq_true_iff]; exact ulid_cmp_eq_zero_iff a b
  refine ⟨fun a => ?_, fun a b c hab hbc => ?_, fun a b => ?_, fun a b h => ?_, fun a b => ?_,
    fun a b hne => ?_, eq_iff, lt_iff⟩
  · rw [← Bool.not_eq_true, lt_iff]; omega
  · rw [lt_iff] at *; omega
  · have h1 : ulid_lt a b = decide (ulid_cmp a b < 0) := rfl
    have h2 : ulid_eq a b = decide (ulid_cmp a b = 0) := rfl
    have h3 : ulid_gt a b = decide (ulid_cmp a b > 0) := rfl
    rw [h1, h2, h3]
    rcases Int.lt_trichotomy (ulid_cmp a b) 0 with h | h | h
    · refine Or.inl ⟨by simpa using h, by simp; omega, by simp; omega⟩
    · refine Or.inr (Or.inl ⟨by simp; omega, by simpa using h, by simp; omega⟩)
    · refine Or.inr (Or.inr ⟨by simp; omega, by simp; omega, by simpa using h⟩)
  · rw [(ulid_cmp_eq_zero_iff a b).mp h]
  · rw [Bool.eq_iff_iff, gt_iff, lt_iff]
  · rw [lt_iff, lt_iff]
    have hn : a.toNat ≠ b.toNat := fun h => hne ((ulid.toNat_eq_iff a b).mp h)
    omega

/-! ## `ulid_cmp` over any conforming `memcmp` -/

theorem conforming_memcmp : ConformingMemcmp memcmp := fun _ _ _ _ _ => rfl

theorem conforming_memcmp_skew : ConformingMemcmp memcmp_skew := by
  intro s1 s2 n _ _
  unfold memcmp_skew
  rcases Int.lt_trichotomy (memcmp s1 s2 n) 0 with h | h | h
  · rw [if_pos h, Int.sign_eq_neg_one_of_neg h]; rfl
  · rw [if_neg (by omega), if_pos h, h]
  · rw [if_neg (by omega), if_neg (by omega), Int.sign_eq_one_of_pos h]; rfl

theorem sign_ulid_cmp_with (m : List Nat → List Nat → Nat → Int) (hm : ConformingMemcmp m)
    (a b : ulid) : Int.sign (ulid_cmp_with m a b) = Int.sign (ulid_cmp a b) :=
  hm _ _ _ (by rw [a.length_bytes]; decide) (by rw [b.length_bytes]; decide)

theorem sign_ulid_cmp (a b : ulid) :
    Int.sign (ulid_cmp a b) =
      (if a.toNat < b.toNat then -1 else if a.toNat = b.toNat then 0 else 1) := by
  rcases Nat.lt_trichotomy a.toNat b.toNat with h | h | h
  · rw [if_pos h, Int.sign_eq_neg_one_of_neg ((ulid_cmp_lt_zero_iff a b).mpr h)]
  · rw [if_neg (by omega), if_pos h, (ulid.toNat_eq_iff a b).mp h,
      (ulid_cmp_eq_zero_iff b b).mpr rfl]
    rfl
  · rw [if_neg (by omega), if_neg (by omega),
      Int.sign_eq_one_of_pos ((ulid_cmp_pos_iff a b).mpr h)]

/-- Claim C6, counterexample. `memcmp_skew` conforms to ISO C; with it `ulid_cmp` returns -1
for the all-zero value against the value with first byte 2 and 1000 the other way round, and
-1 is not -1000. -/
theorem ulid_cmp_with_not_odd :
    ConformingMemcmp memcmp_skew ∧
      ulid_cmp_with memcmp_skew zeroUlid twoUlid = -1 ∧
      ulid_cmp_with memcmp_skew twoUlid zeroUlid = 1000 ∧
      ulid_cmp_with memcmp_skew zeroUlid twoUlid ≠
        -ulid_cmp_with memcmp_skew twoUlid zeroUlid :=
  ⟨conforming_memcmp_skew, by decide, by decide, by decide⟩

/-- Claim C6, as amended. Whatever conforming `memcmp` the C library supplies, the sign of
`ulid_cmp a b` is the negated sign of `ulid_cmp b a`, and `ulid_cmp a a = 0`. -/
theorem ulid_cmp_with_sign_swap (m : List Nat → List Nat → Nat → Int)
    (hm : ConformingMemcmp m) (a b : ulid) :
    Int.sign (ulid_cmp_with m a b) = -Int.sign (ulid_cmp_with m b a) ∧
      ulid_cmp_with m a a = 0 := by
  constructor
  · rw [sign_ulid_cmp_with m hm a b, sign_ulid_cmp_with m hm b a, sign_ulid_cmp a b,
      sign_ulid_cmp b a]
    rcases Nat.lt_trichotomy a.toNat b.toNat with h | h | h
    · rw [if_pos h, if_neg (by omega), if_neg (by omega)]
    · rw [if_neg (by omega), if_pos h, if_neg (by omega), if_pos h.symm, Int.neg_zero]
    · rw [if_neg (by omega), if_neg (by omega), if_pos h]; rfl
  · have h := sign_ulid_cmp_with m hm a a
    rw [sign_ulid_cmp a a, if_neg (Nat.lt_irrefl _), if_pos rfl] at h
    exact Int.sign_eq_zero_iff_zero.mp h

/-- Witness for `ulid_cmp_with_sign_swap`: `memcmp_skew` on the all-zero value and the value
with first byte 2. -/
theorem ulid_cmp_with_sign_swap_witness :
    ConformingMemcmp memcmp_skew ∧
      Int.sign (ulid_cmp_with memcmp_skew zeroUlid twoUlid) =
        -Int.sign (ulid_cmp_with memcmp_skew twoUlid zeroUlid) ∧
      ulid_cmp_with memcmp_skew zeroUlid zeroUlid = 0 :=
  ⟨conforming_memcmp_skew,
    ulid_cmp_with_sign_swap memcmp_skew conforming_memcmp_skew zeroUlid twoUlid⟩

/-- Claim C8, counterexample. The byte-wise scan is a conforming `memcmp`; with it `ulid_cmp`
returns -2 for the all-zero value against the value with first byte 2.  So it is not the
case that `ulid_cmp` returns -1, 0 or +1 with every conforming `memcmp`. -/
theorem ulid_cmp_with_not_unit :
    ConformingMemcmp memcmp ∧ ulid_cmp_with memcmp zeroUlid twoUlid = -2 ∧
      ¬ (∀ m, ConformingMemcmp m → ∀ a b : ulid,
        ulid_cmp_with m a b = -1 ∨ ulid_cmp_with m a b = 0 ∨ ulid_cmp_with m a b = 1) := by
  refine ⟨conforming_memcmp, by decide, fun h => ?_⟩
  have h2 : ulid_cmp_with memcmp zeroUlid twoUlid = -2 := by decide
  rcases h memcmp conforming_memcmp zeroUlid twoUlid with h1 | h1 | h1 <;>
    rw [h2] at h1 <;> exact absurd h1 (by decide)

/-- Claim C8, as amended. Whatever conforming `memcmp` the C library supplies, the sign of
`ulid_cmp a b` is one of -1, 0, +1: -1 when `a` is below `b` as a big-endian number, 0 when
they are equal, +1 when `a` is above `b`. -/
theorem ulid_cmp_with_sign (m : List Nat → List Nat → Nat → Int)
    (hm : ConformingMemcmp m) (a b : ulid) :
    Int.sign (ulid_cmp_with m a b) =
        (if a.toNat < b.toNat then -1 else if a.toNat = b.toNat then 0 else 1) ∧
      (Int.sign (ulid_cmp_with m a b) = -1 ∨ Int.sign (ulid_cmp_with m a b) = 0 ∨
        Int.sign (ulid_cmp_with m a b) = 1) := by
  have h : Int.sign (ulid_cmp_with m a b) =
      (if a.toNat < b.toNat then -1 else if a.toNat = b.toNat then 0 else 1) := by
    rw [sign_ulid_cmp_with m hm a b, sign_ulid_cmp a b]
  refine ⟨h, ?_⟩
  rw [h]
  split_ifs
  · exact Or.inl rfl
  · exact Or.inr (Or.inl rfl)
  · exact Or.inr (Or.inr rfl)

/-- Witness for `ulid_cmp_with_sign`: the byte-wise scan on the all-zero value and the value
with first byte 2, where the result -2 has sign -1. -/
theorem ulid_cmp_with_sign_witness :
    ConformingMemcmp memcmp ∧ Int.sign (ulid_cmp_with memcmp zeroUlid twoUlid) = -1 :=
  ⟨conforming_memcmp,
    (ulid_cmp_with_sign memcmp conforming_memcmp zeroUlid twoUlid).1.trans (by decide)⟩

/-! ## Text order -/

theorem Encoding.at_toNat (i : Nat) (h : i < 32) :
    (Encoding.at i).toNat =
      if i < 10 then 48 + i else if i < 18 then 55 + i else if i < 20 then 56 + i
      else if i < 22 then 57 + i else if i < 27 then 58 + i else 59 + i := by
  interval_cases i <;> rfl

theorem Encoding.at_lt_iff (i j : Nat) (hi : i < 32) (hj : j < 32) :
    (Encoding.at i).toNat < (Encoding.at j).toNat ↔ i < j := by
  rw [Encoding.at_toNat i hi, Encoding.at_toNat j hj]
  split_ifs <;> omega

theorem strLt_map_at (l r : List Nat) (hlen : l.length = r.length)
    (hl : ∀ x ∈ l, x < 32) (hr : ∀ x ∈ r, x < 32) :
    strLt (l.map Encoding.at) (r.map Encoding.at) ↔ List.Lex (fun x y : Nat => x < y) l r := by
  induction l generalizing r with
  | nil =>
    cases r with
    | nil => simp [strLt]
    | cons c cs => simp at hlen
  | cons a as ih =>
    cases r with
    | nil => simp at hlen
    | cons c cs =>
      have hlen' : as.length = cs.length := by simpa using hlen
      have ha := hl a (List.mem_cons_self _ _)
      have hc := hr c (List.mem_cons_self _ _)
      have ih' := ih cs hlen' (fun x hx => hl x (List.mem_cons_of_mem _ hx))
        (fun x hx => hr x (List.mem_cons_of_mem _ hx))
      unfold strLt at ih' ⊢
      simp only [List.map_cons]
      constructor
      · intro h
        generalize hx : Encoding.at a = x at h
        generalize hy : Encoding.at c = y at h
        cases h with
        | cons h =>
          have e : a = c := Encoding.at_injective a c ha hc (hx.trans hy.symm)
          subst e
          exact List.Lex.cons (ih'.mp h)
        | rel h =>
          subst hx hy
          exact List.Lex.rel ((Encoding.at_lt_iff a c ha hc).mp h)
      · intro h
        cases h with
        | cons h => exact List.Lex.cons (ih'.mpr h)
        | rel h => exact List.Lex.rel ((Encoding.at_lt_iff a c ha hc).mpr h)

theorem map_at_eq_iff (l r : List Nat) (hlen : l.length = r.length)
    (hl : ∀ x ∈ l, x < 32) (hr : ∀ x ∈ r, x < 32) :
    l.map Encoding.at = r.map Encoding.at ↔ l = r := by
  induction l generalizing r with
  | nil =>
    cases r with
    | nil => simp
    | cons c cs => simp at hlen
  | cons a as ih =>
    cases r with
    | nil => simp at hlen
    | cons c cs =>
      have hlen' : as.length = cs.length := by simpa using hlen
      have ha := hl a (List.mem_cons_self _ _)
      have hc := hr c (List.mem_cons_self _ _)
      have ih' := ih cs hlen' (fun x hx => hl x (List.mem_cons_of_mem _ hx))
        (fun x hx => hr x (List.mem_cons_of_mem _ hx))
      simp only [List.map_cons, List.cons.injEq, ih']
      constructor
      · rintro ⟨h1, h2⟩; exact ⟨Encoding.at_injective a c ha hc h1, h2⟩
      · rintro ⟨rfl, h2⟩; exact ⟨rfl, h2⟩

theorem group1_value (a : Nat) (ha : a < 256) :
    beVal 32 [a / 32 % 8, a % 32] = beVal 256 [a] := by
  show (a / 32 % 8) * 32 ^ 1 + (a % 32 * 32 ^ 0 + 0) = a * 256 ^ 0 + 0
  omega

theorem group5_value (a b c d e : Nat) (ha : a < 256) (hb : b < 256) (hc : c < 256)
    (hd : d < 256) (he : e < 256) :
    beVal 32 [a / 8 % 32, a % 8 * 4 + b / 64 % 4, b / 2 % 32, b % 2 * 16 + c / 16 % 16,
      c % 16 * 2 + d / 128 % 2, d / 4 % 32, d % 4 * 8 + e / 32 % 8, e % 32] =
    beVal 256 [a, b, c, d, e] := by
  show (a / 8 % 32) * 32 ^ 7 + ((a % 8 * 4 + b / 64 % 4) * 32 ^ 6 + ((b / 2 % 32) * 32 ^ 5 +
    ((b % 2 * 16 + c / 16 % 16) * 32 ^ 4 + ((c % 16 * 2 + d / 128 % 2) * 32 ^ 3 +
    ((d / 4 % 32) * 32 ^ 2 + ((d % 4 * 8 + e / 32 % 8) * 32 ^ 1 + (e % 32 * 32 ^ 0 + 0))))))) =
    a * 256 ^ 4 + (b * 256 ^ 3 + (c * 256 ^ 2 + (d * 256 ^ 1 + (e * 256 ^ 0 + 0))))
  omega

theorem beVal_groups (b n : Nat) (P A B C : List Nat) (hA : A.length = n) (hB : B.length = n)
    (hC : C.length = n) :
    beVal b (P ++ (A ++ (B ++ C))) =
      beVal b P * (b ^ n) ^ 3 + (beVal b A * (b ^ n) ^ 2 + (beVal b B * b ^ n + beVal b C)) := by
  rw [beVal_append, beVal_append, beVal_append, List.length_append, List.length_append,
    hA, hB, hC]
  ring

theorem text_digits (v : ulid) :
    ∃ ds : List Nat, ds.length = 26 ∧ (∀ x ∈ ds, x < 32) ∧
      cstr (ulid_to_string v) = ds.map Encoding.at ∧ beVal 32 ds = v.toNat := by
  obtain ⟨d0, d1, d2, d3, d4, d5, d6, d7, d8, d9, d10, d11, d12, d13, d14, d15, hb,
    ⟨h0, h1, h2, h3, h4, h5, h6, h7⟩, ⟨h8, h9, h10, h11, h12, h13, h14, h15⟩⟩ := v.bytes_eq
  refine ⟨[d0 / 32 % 8, d0 % 32] ++
    ([d1 / 8 % 32, d1 % 8 * 4 + d2 / 64 % 4, d2 / 2 % 32, d2 % 2 * 16 + d3 / 16 % 16,
      d3 % 16 * 2 + d4 / 128 % 2, d4 / 4 % 32, d4 % 4 * 8 + d5 / 32 % 8, d5 % 32] ++
    ([d6 / 8 % 32, d6 % 8 * 4 + d7 / 64 % 4, d7 / 2 % 32, d7 % 2 * 16 + d8 / 16 % 16,
      d8 % 16 * 2 + d9 / 128 % 2, d9 / 4 % 32, d9 % 4 * 8 + d10 / 32 % 8, d10 % 32] ++
    [d11 / 8 % 32, d11 % 8 * 4 + d12 / 64 % 4, d12 / 2 % 32, d12 % 2 * 16 + d13 / 16 % 16,
      d13 % 16 * 2 + d14 / 128 % 2, d14 / 4 % 32, d14 % 4 * 8 + d15 / 32 % 8, d15 % 32])),
    rfl, ?_, ?_, ?_⟩
  · intro x hx
    simp only [List.cons_append, List.nil_append, List.mem_cons, List.mem_singleton,
      List.not_mem_nil, or_false] at hx
    omega
  · rw [ulid_to_string_eq v _ _ _ _ _ _ _ _ _ _ _ _ _ _ _ _ hb]
    iterate 26 rw [cstr_cons_at _ _ (by omega)]
    rfl
  · have e : (32 : Nat) ^ 8 = 256 ^ 5 := by norm_num
    have l := beVal_groups 32 8 [d0 / 32 % 8, d0 % 32]
      [d1 / 8 % 32, d1 % 8 * 4 + d2 / 64 % 4, d2 / 2 % 32, d2 % 2 * 16 + d3 / 16 % 16,
        d3 % 16 * 2 + d4 / 128 % 2, d4 / 4 % 32, d4 % 4 * 8 + d5 / 32 % 8, d5 % 32]
      [d6 / 8 % 32, d6 % 8 * 4 + d7 / 64 % 4, d7 / 2 % 32, d7 % 2 * 16 + d8 / 16 % 16,
        d8 % 16 * 2 + d9 / 128 % 2, d9 / 4 % 32, d9 % 4 * 8 + d10 / 32 % 8, d10 % 32]
      [d11 / 8 % 32, d11 % 8 * 4 + d12 / 64 % 4, d12 / 2 % 32, d12 % 2 * 16 + d13 / 16 % 16,
        d13 % 16 * 2 + d14 / 128 % 2, d14 / 4 % 32, d14 % 4 * 8 + d15 / 32 % 8, d15 % 32]
      rfl rfl rfl
    have r := beVal_groups 256 5 [d0] [d1, d2, d3, d4, d5] [d6, d7, d8, d9, d10]
      [d11, d12, d13, d14, d15] rfl rfl rfl
    rw [group1_value d0 h0, group5_value d1 d2 d3 d4 d5 h1 h2 h3 h4 h5,
      group5_value d6 d7 d8 d9 d10 h6 h7 h8 h9 h10,
      group5_value d11 d12 d13 d14 d15 h11 h12 h13 h14 h15, e] at l
    rw [ulid.toNat, hb]
    exact l.trans r.symm

/-- Claim C5. Text order agrees with binary order: `ulid_cmp a b < 0` exactly when the text of
`a` is lexicographically smaller, by character code, than the text of `b`, and
`ulid_cmp a b = 0` exactly when the two texts are equal. -/
theorem text_order_agrees (a b : ulid) :
    (ulid_cmp a b < 0 ↔ strLt (cstr (ulid_out a)) (cstr (ulid_out b))) ∧
    (ulid_cmp a b = 0 ↔ cstr (ulid_out a) = cstr (ulid_out b)) := by
  obtain ⟨da, hla, hba, hta, hva⟩ := text_digits a
  obtain ⟨db, hlb, hbb, htb, hvb⟩ := text_digits b
  have hlen : da.length = db.length := by rw [hla, hlb]
  rw [ulid_out, ulid_out, hta, htb]
  constructor
  · rw [ulid_cmp_lt_zero_iff, ← hva, ← hvb, beVal_lt_iff_lex 32 _ _ hlen hba hbb,
      strLt_map_at _ _ hlen hba hbb]
  · rw [ulid_cmp_eq_zero_iff, ← ulid.toNat_eq_iff, ← hva, ← hvb,
      beVal_eq_iff 32 _ _ hlen hba hbb, map_at_eq_iff _ _ hlen hba hbb]

/-! ## Timestamps -/

theorem tdiv_1000 (t : Int) :
    t.tdiv 1000 = if 0 ≤ t then t / 1000 else -((-t) / 1000) := by
  split_ifs with h
  · exact Int.tdiv_eq_ediv h (by decide)
  · have e : t = -(-t) := by omega
    conv_lhs => rw [e, Int.neg_tdiv]
    rw [Int.tdiv_eq_ediv (by omega) (by decide)]

theorem tdiv_1000000_nonneg (t : Int) (h : 0 ≤ t) : t.tdiv 1000000 = t / 1000000 :=
  Int.tdiv_eq_ediv h (by decide)

theorem stamped_bytes (ts x0 x1 x2 x3 x4 x5 x6 x7 x8 x9 : Nat) :
    (store 16
      [ ts >>> 40, ts >>> 32, ts >>> 24, ts >>> 16, ts >>> 8, ts,
        x0 &&& 0x7F, x1, x2, x3, x4, x5, x6, x7, x8, x9 ] rfl).bytes =
      [ ts / 2 ^ 40 % 256, ts / 2 ^ 32 % 256, ts / 2 ^ 24 % 256, ts / 2 ^ 16 % 256,
        ts / 2 ^ 8 % 256, ts % 256,
        x0 % 128 % 256, x1 % 256, x2 % 256, x3 % 256, x4 % 256, x5 % 256, x6 % 256,
        x7 % 256, x8 % 256, x9 % 256 ] := by
  simp only [store, List.map, Nat.shiftRight_eq_div_pow, and_7F]

theorem generate_ulid_bytes (tp : timespec) (random : ByteArr ULID_RANDOM_LENGTH) :
    ∃ ts p0 p1 p2 p3 p4 p5 p6 p7 p8 p9 : Nat,
      ts = u64 ((u64 tp.tv_sec : Int) * 1000 + tp.tv_nsec.tdiv 1000000) ∧
      (generate_ulid tp random).data.bytes =
        [ ts / 2 ^ 40 % 256, ts / 2 ^ 32 % 256, ts / 2 ^ 24 % 256, ts / 2 ^ 16 % 256,
          ts / 2 ^ 8 % 256, ts % 256, p0, p1, p2, p3, p4, p5, p6, p7, p8, p9 ] :=
  ⟨_, _, _, _, _, _, _, _, _, _, _, rfl, stamped_bytes _ _ _ _ _ _ _ _ _ _ _⟩

theorem timestamp_to_ulid_bytes (t : Int) (random : ByteArr ULID_RANDOM_LENGTH) :
    ∃ ts p0 p1 p2 p3 p4 p5 p6 p7 p8 p9 : Nat,
      ts = u64 ((u64 (t.tdiv 1000) : Int) + EpochMillis) ∧
      (timestamp_to_ulid t random).data.bytes =
        [ ts / 2 ^ 40 % 256, ts / 2 ^ 32 % 256, ts / 2 ^ 24 % 256, ts / 2 ^ 16 % 256,
          ts / 2 ^ 8 % 256, ts % 256, p0, p1, p2, p3, p4, p5, p6, p7, p8, p9 ] :=
  ⟨_, _, _, _, _, _, _, _, _, _, _, rfl, stamped_bytes _ _ _ _ _ _ _ _ _ _ _⟩

theorem beVal_stamp (ts : Nat) :
    beVal 256 [ ts / 2 ^ 40 % 256, ts / 2 ^ 32 % 256, ts / 2 ^ 24 % 256, ts / 2 ^ 16 % 256,
      ts / 2 ^ 8 % 256, ts % 256 ] = ts % 2 ^ 48 := by
  show ts / 2 ^ 40 % 256 * 256 ^ 5 + (ts / 2 ^ 32 % 256 * 256 ^ 4 + (ts / 2 ^ 24 % 256 * 256 ^ 3 +
    (ts / 2 ^ 16 % 256 * 256 ^ 2 + (ts / 2 ^ 8 % 256 * 256 ^ 1 + (ts % 256 * 256 ^ 0 + 0))))) =
    ts % 2 ^ 48
  omega

theorem timestampField_generate_ulid (tp : timespec) (random : ByteArr ULID_RANDOM_LENGTH) :
    (generate_ulid tp random).timestampField =
      u64 ((u64 tp.tv_sec : Int) * 1000 + tp.tv_nsec.tdiv 1000000) % 2 ^ 48 := by
  obtain ⟨ts, p0, p1, p2, p3, p4, p5, p6, p7, p8, p9, hts, hb⟩ := generate_ulid_bytes tp random
  rw [ulid.timestampField, hb, ← hts]
  exact beVal_stamp ts

theorem timestampField_timestamp_to_ulid (t : Int) (random : ByteArr ULID_RANDOM_LENGTH) :
    (timestamp_to_ulid t random).timestampField =
      u64 ((u64 (t.tdiv 1000) : Int) + EpochMillis) % 2 ^ 48 := by
  obtain ⟨ts, p0, p1, p2, p3, p4, p5, p6, p7, p8, p9, hts, hb⟩ :=
    timestamp_to_ulid_bytes t random
  rw [ulid.timestampField, hb, ← hts]
  exact beVal_stamp ts

theorem generate_ulid_millis (tp : timespec) (random : ByteArr ULID_RANDOM_LENGTH)
    (hv : tp.valid) (h : tp.millis < 2 ^ 48) :
    ((generate_ulid tp random).timestampField : Int) = tp.millis := by
  rw [timestampField_generate_ulid]
  obtain ⟨h1, h2, h3⟩ := hv
  unfold timespec.millis at h ⊢
  rw [tdiv_1000000_nonneg _ h2]
  unfold u64
  omega

theorem ulid.toNat_split (u : ulid) :
    u.toNat = u.timestampField * 256 ^ 10 + beVal 256 (u.data.bytes.drop 6) ∧
      beVal 256 (u.data.bytes.drop 6) < 256 ^ 10 := by
  have hlen : (u.data.bytes.drop 6).length = 10 := by
    rw [List.length_drop, u.length_bytes]
  constructor
  · rw [ulid.toNat, ulid.timestampField, ← hlen, ← beVal_append]
    show _ = beVal 256 (List.take 6 u.data.bytes ++ List.drop 6 u.data.bytes)
    rw [List.take_append_drop]
  · have := beVal_lt_pow 256 (u.data.bytes.drop 6)
      (fun x hx => u.data.byte_lt x (List.mem_of_mem_drop hx))
    rwa [hlen] at this

theorem ulid_cmp_of_timestampField_lt (a b : ulid) (h : a.timestampField < b.timestampField) :
    ulid_cmp a b < 0 := by
  rw [ulid_cmp_lt_zero_iff, a.toNat_split.1, b.toNat_split.1]
  exact (digit_lt_iff _ _ _ _ _ a.toNat_split.2 b.toNat_split.2).mpr (Or.inl h)

/-- Claim C9. The timestamp dominates the order: for two clock readings (seconds not negative,
nanoseconds in `[0, 10 ^ 9)`) with millisecond values `m1 < m2 < 2 ^ 48` and any two random
draws, `ulid_cmp` of the generated values is negative; and for `m1 ≤ m2 < 2 ^ 48` the
timestamp field of the first is not greater than that of the second. -/
theorem generate_ulid_order (tp1 tp2 : timespec) (r1 r2 : ByteArr ULID_RANDOM_LENGTH)
    (hv1 : tp1.valid) (hv2 : tp2.valid) (h48 : tp2.millis < 2 ^ 48) :
    (tp1.millis < tp2.millis → ulid_cmp (generate_ulid tp1 r1) (generate_ulid tp2 r2) < 0) ∧
    (tp1.millis ≤ tp2.millis →
      (generate_ulid tp1 r1).timestampField ≤ (generate_ulid tp2 r2).timestampField) := by
  have e2 := generate_ulid_millis tp2 r2 hv2 h48
  constructor
  · intro hlt
    have e1 := generate_ulid_millis tp1 r1 hv1 (by omega)
    exact ulid_cmp_of_timestampField_lt _ _ (by omega)
  · intro hle
    have e1 := generate_ulid_millis tp1 r1 hv1 (by omega)
    omega

/-- Witness for `generate_ulid_order`: two readings 5 ms apart, the earlier one drawn with
the largest payload and the later one with the smallest. -/
theorem generate_ulid_order_witness :
    (clockA.valid ∧ clockB.valid ∧ clockB.millis < 2 ^ 48 ∧ clockA.millis < clockB.millis) ∧
      ulid_cmp (generate_ulid clockA drawMax) (generate_ulid clockB drawZero) < 0 :=
  ⟨⟨by decide, by decide, by decide, by decide⟩,
    (generate_ulid_order clockA clockB drawMax drawZero (by decide) (by decide)
      (by decide)).1 (by decide)⟩

theorem or_chain (d0 d1 d2 d3 d4 d5 : Nat) (h0 : d0 < 256) (h1 : d1 < 256) (h2 : d2 < 256)
    (h3 : d3 < 256) (h4 : d4 < 256) (h5 : d5 < 256) :
    (0 ||| (d0 <<< 40) ||| (d1 <<< 32) ||| (d2 <<< 24) ||| (d3 <<< 16) ||| (d4 <<< 8) ||| d5) =
      d0 * 2 ^ 40 + d1 * 2 ^ 32 + d2 * 2 ^ 24 + d3 * 2 ^ 16 + d4 * 2 ^ 8 + d5 := by
  rw [Nat.zero_or, Nat.shiftLeft_eq, Nat.shiftLeft_eq, Nat.shiftLeft_eq, Nat.shiftLeft_eq,
    Nat.shiftLeft_eq,
    lor_eq_add 40 (d0 * 2 ^ 40) (d1 * 2 ^ 32) (by omega) (by omega),
    lor_eq_add 32 (d0 * 2 ^ 40 + d1 * 2 ^ 32) (d2 * 2 ^ 24) (by omega) (by omega),
    lor_eq_add 24 (d0 * 2 ^ 40 + d1 * 2 ^ 32 + d2 * 2 ^ 24) (d3 * 2 ^ 16) (by omega) (by omega),
    lor_eq_add 16 (d0 * 2 ^ 40 + d1 * 2 ^ 32 + d2 * 2 ^ 24 + d3 * 2 ^ 16) (d4 * 2 ^ 8)
      (by omega) (by omega),
    lor_eq_add 8 (d0 * 2 ^ 40 + d1 * 2 ^ 32 + d2 * 2 ^ 24 + d3 * 2 ^ 16 + d4 * 2 ^ 8) d5
      (by omega) (by omega)]

theorem u64_eq (x : Int) : (u64 x : Int) = x % 18446744073709551616 := by
  unfold u64
  have : (2 : Int) ^ 64 = 18446744073709551616 := by norm_num
  rw [this]
  omega

theorem i64_eq (x : Int) :
    i64 x = (x + 9223372036854775808) % 18446744073709551616 - 9223372036854775808 := by
  unfold i64
  norm_num

theorem wrap_timestamp (T : Nat) (h : T < 2 ^ 48) :
    i64 (u64 ((u64 ((u64 (i64 T) : Int) - EpochMillis) : Int) * 1000)) =
      ((T : Int) - EpochMillis) * 1000 := by
  rw [i64_eq, u64_eq, u64_eq, u64_eq, i64_eq]
  unfold EpochMillis
  omega

theorem ulid_to_timestamp_eq (u : ulid) :
    ulid_to_timestamp u = ((u.timestampField : Int) - EpochMillis) * 1000 := by
  obtain ⟨d0, d1, d2, d3, d4, d5, d6, d7, d8, d9, d10, d11, d12, d13, d14, d15, hb,
    ⟨h0, h1, h2, h3, h4, h5, h6, h7⟩, -⟩ := u.bytes_eq
  have hT : u.timestampField =
      d0 * 2 ^ 40 + d1 * 2 ^ 32 + d2 * 2 ^ 24 + d3 * 2 ^ 16 + d4 * 2 ^ 8 + d5 := by
    rw [ulid.timestampField, hb]
    show d0 * 256 ^ 5 + (d1 * 256 ^ 4 + (d2 * 256 ^ 3 + (d3 * 256 ^ 2 + (d4 * 256 ^ 1 +
      (d5 * 256 ^ 0 + 0))))) = _
    omega
  have hor := or_chain d0 d1 d2 d3 d4 d5 h0 h1 h2 h3 h4 h5
  have hlt : u.timestampField < 2 ^ 48 := by rw [hT]; omega
  rw [← wrap_timestamp _ hlt, hT, ← hor]
  simp only [ulid_to_timestamp, ulid.get, hb, List.getD_cons_zero, List.getD_cons_succ]

/-- Claim C10. For a host timestamp `t` (microseconds since 2000-01-01) whose Unix millisecond
value `t / 1000 + 946684800000` (the division truncating, as in C) lies in `[0, 2 ^ 48)`, and
for any random payload, `ulid_to_timestamp (timestamp_to_ulid t)` is `t` cut to whole
milliseconds: a multiple of 1000 that differs from `t` by less than 1000 and equals `t` when
`t` is a multiple of 1000. -/
theorem timestamp_roundtrip (t : Int) (random : ByteArr ULID_RANDOM_LENGTH)
    (hlo : 0 ≤ t.tdiv 1000 + EpochMillis) (hhi : t.tdiv 1000 + EpochMillis < 2 ^ 48) :
    ulid_to_timestamp (timestamp_to_ulid t random) = t.tdiv 1000 * 1000 ∧
    (1000 : Int) ∣ ulid_to_timestamp (timestamp_to_ulid t random) ∧
    |t - ulid_to_timestamp (timestamp_to_ulid t random)| < 1000 ∧
    ((1000 : Int) ∣ t → ulid_to_timestamp (timestamp_to_ulid t random) = t) := by
  have hval : ulid_to_timestamp (timestamp_to_ulid t random) = t.tdiv 1000 * 1000 := by
    rw [ulid_to_timestamp_eq, timestampField_timestamp_to_ulid]
    push_cast
    rw [u64_eq, u64_eq]
    unfold EpochMillis at *
    omega
  rw [hval]
  refine ⟨rfl, Dvd.intro_left _ rfl, ?_, ?_⟩
  · rw [abs_lt, tdiv_1000]
    split_ifs <;> omega
  · intro hd
    rw [tdiv_1000]
    split_ifs <;> omega

/-- Witness for `timestamp_roundtrip`: 1.5 ms before 2000-01-01 comes back as 1 ms before. -/
theorem timestamp_roundtrip_witness :
    (0 ≤ Int.tdiv (-1500) 1000 + (EpochMillis : Int) ∧
      Int.tdiv (-1500) 1000 + (EpochMillis : Int) < 2 ^ 48) ∧
      ulid_to_timestamp (timestamp_to_ulid (-1500) drawMax) = -1000 :=
  ⟨⟨by decide, by decide⟩,
    (timestamp_roundtrip (-1500) drawMax (by decide) (by decide)).1.trans (by decide)⟩

theorem Encoding.at_mem (i : Nat) (h : i < 32) : inAlphabet (Encoding.at i) := by
  interval_cases i <;> decide

theorem charAt_cstr (s : List Char) (i : Nat) (h : i < strlen s) :
    charAt s i = (cstr s).getD i NUL := by
  induction s generalizing i with
  | nil => simp [strlen] at h
  | cons x xs ih =>
    by_cases hx : x = NUL
    · simp [strlen, hx] at h
    · cases i with
      | zero => simp [charAt, cstr, hx]
      | succ j =>
        simp only [strlen, hx, if_false] at h
        have := ih j (by omega)
        simp only [charAt, cstr, hx, if_false, List.getD_cons_succ] at this ⊢
        exact this

/-! ## The characters as base-32 digits -/

theorem beVal_digit (b : Nat) (l r : List Nat) (x : Nat) (hx : x < b)
    (hr : ∀ y ∈ r, y < b) :
    beVal b (l ++ x :: r) / b ^ r.length % b = x := by
  have hv := beVal_lt_pow b r hr
  have hpos : 0 < b ^ r.length := Nat.lt_of_le_of_lt (Nat.zero_le _) hv
  have e : beVal b (l ++ x :: r) = beVal b r + b ^ r.length * (x + b * beVal b l) := by
    rw [beVal_append]
    show beVal b l * b ^ (r.length + 1) + (x * b ^ r.length + beVal b r) = _
    rw [Nat.pow_succ]
    ring
  rw [e, Nat.add_mul_div_left _ _ hpos, Nat.div_eq_of_lt hv, Nat.zero_add,
    Nat.add_mul_mod_self_left, Nat.mod_eq_of_lt hx]

theorem digit_getElem (b : Nat) (ds : List Nat) (h : ∀ y ∈ ds, y < b) (i : Nat)
    (hi : i < ds.length) : ds[i] = beVal b ds / b ^ (ds.length - 1 - i) % b := by
  have hsplit : ds = ds.take i ++ ds[i] :: ds.drop (i + 1) := by
    rw [← List.drop_eq_getElem_cons hi, List.take_append_drop]
  have hlen : (ds.drop (i + 1)).length = ds.length - 1 - i := by
    rw [List.length_drop]; omega
  have key := beVal_digit b (ds.take i) (ds.drop (i + 1)) ds[i] (h _ (List.getElem_mem hi))
    (fun y hy => h y (List.mem_of_mem_drop hy))
  rw [← hsplit, hlen] at key
  exact key.symm

/-- Claim C11. The text of a value has exactly 26 characters; the `i`-th one (`0 ≤ i < 26`) is
the alphabet symbol at index `(N(v) / 32 ^ (25 - i)) mod 32`, with `N(v)` the big-endian
128-bit number of the sixteen bytes; each index is below 32 and each character belongs to the
alphabet. -/
theorem ulid_out_digits (v : ulid) :
    (cstr (ulid_out v)).length = 26 ∧
    cstr (ulid_out v) =
      (List.range 26).map (fun i => Encoding.at (v.toNat / 32 ^ (25 - i) % 32)) ∧
    (∀ i, i < 26 → v.toNat / 32 ^ (25 - i) % 32 < 32 ∧
      charAt (ulid_out v) i = Encoding.at (v.toNat / 32 ^ (25 - i) % 32)) ∧
    (∀ c ∈ cstr (ulid_out v), inAlphabet c) := by
  obtain ⟨ds, hlen, hds, htext, hval⟩ := text_digits v
  have hmap : cstr (ulid_out v) =
      (List.range 26).map (fun i => Encoding.at (v.toNat / 32 ^ (25 - i) % 32)) := by
    rw [ulid_out, htext]
    apply List.ext_getElem
    · simp [hlen]
    · intro i h1 h2
      have hi : i < ds.length := by simpa using h1
      rw [List.getElem_map, List.getElem_map, List.getElem_range,
        digit_getElem 32 ds hds i hi, hval, hlen]
  have hidx : ∀ i, i < 26 → v.toNat / 32 ^ (25 - i) % 32 < 32 :=
    fun i _ => Nat.mod_lt _ (by decide)
  refine ⟨by rw [hmap]; simp, hmap, fun i hi => ⟨hidx i hi, ?_⟩, ?_⟩
  · have h27 := strlen_ulid_to_string v
    have hc : charAt (ulid_out v) i = (cstr (ulid_out v)).getD i NUL := by
      rw [ulid_out]
      exact charAt_cstr _ _ (by rw [h27]; exact hi)
    rw [hc, hmap, List.getD_eq_getElem _ _ (by simpa using hi), List.getElem_map,
      List.getElem_range]
  · intro c hc
    rw [hmap] at hc
    obtain ⟨i, hi, rfl⟩ := List.mem_map.mp hc
    exact Encoding.at_mem _ (Nat.mod_lt _ (by decide))

/-! ## The timestamp conversions in detail -/

/-- Claim C14. `ulid_to_timestamp v` is `(T - 946684800000) * 1000` as an exact integer, where
`T < 2 ^ 48` is the big-endian number in bytes 0..5: the `int64_t` result is never a wrapped
value (the exact product lies in `[-2 ^ 63, 2 ^ 63)`, also for `T < 946684800000`, where it
is negative), and two values with the same bytes 0..5 give the same timestamp. -/
theorem ulid_to_timestamp_exact (v : ulid) :
    ulid_to_timestamp v = ((v.timestampField : Int) - 946684800000) * 1000 ∧
    v.timestampField < 2 ^ 48 ∧
    (-2 ^ 63 ≤ ((v.timestampField : Int) - 946684800000) * 1000 ∧
      ((v.timestampField : Int) - 946684800000) * 1000 < 2 ^ 63) ∧
    (v.timestampField < 946684800000 → ulid_to_timestamp v < 0) ∧
    (∀ w : ulid, w.data.bytes.take 6 = v.data.bytes.take 6 →
      ulid_to_timestamp w = ulid_to_timestamp v) := by
  have hlt : v.timestampField < 2 ^ 48 := by
    have h := beVal_lt_pow 256 (v.data.bytes.take 6)
      (fun x hx => v.data.byte_lt x (List.mem_of_mem_take hx))
    have hl : (v.data.bytes.take 6).length = 6 := by
      rw [List.length_take, v.length_bytes]; rfl
    rw [hl] at h
    exact h
  have hv : ulid_to_timestamp v = ((v.timestampField : Int) - 946684800000) * 1000 :=
    ulid_to_timestamp_eq v
  refine ⟨hv, hlt, ⟨by omega, by omega⟩, fun h => by rw [hv]; omega, fun w hw => ?_⟩
  have e : w.timestampField = v.timestampField := by
    unfold ulid.timestampField
    exact congrArg (beVal 256) hw
  rw [ulid_to_timestamp_eq w, ulid_to_timestamp_eq v, e]

theorem list10 (l : List Nat) (h : l.length = 10) :
    ∃ r0 r1 r2 r3 r4 r5 r6 r7 r8 r9, l = [r0, r1, r2, r3, r4, r5, r6, r7, r8, r9] := by
  match l, h with
  | [r0, r1, r2, r3, r4, r5, r6, r7, r8, r9], _ =>
    exact ⟨r0, r1, r2, r3, r4, r5, r6, r7, r8, r9, rfl⟩

theorem payload_bytes (ts : Nat) (random : ByteArr ULID_RANDOM_LENGTH) :
    (store 16
      [ ts >>> 40, ts >>> 32, ts >>> 24, ts >>> 16, ts >>> 8, ts,
        random.bytes.getD 0 0 &&& 0x7F, random.bytes.getD 1 0, random.bytes.getD 2 0,
        random.bytes.getD 3 0, random.bytes.getD 4 0, random.bytes.getD 5 0,
        random.bytes.getD 6 0, random.bytes.getD 7 0, random.bytes.getD 8 0,
        random.bytes.getD 9 0 ] rfl).bytes.drop 6 =
      (random.bytes.getD 0 0 &&& 0x7F) :: random.bytes.drop 1 ∧
    random.bytes.getD 0 0 &&& 0x7F < 128 := by
  obtain ⟨r0, r1, r2, r3, r4, r5, r6, r7, r8, r9, hr⟩ := list10 random.bytes random.size_eq
  have hb := random.byte_lt
  rw [hr] at hb ⊢
  simp only [List.mem_cons, List.mem_singleton, forall_eq_or_imp, forall_eq,
    List.not_mem_nil, false_implies, implies_true, and_true] at hb
  obtain ⟨b0, b1, b2, b3, b4, b5, b6, b7, b8, b9⟩ := hb
  simp only [store, List.map, List.getD_cons_zero, List.getD_cons_succ, List.drop, and_7F,
    Nat.mod_eq_of_lt b1, Nat.mod_eq_of_lt b2, Nat.mod_eq_of_lt b3, Nat.mod_eq_of_lt b4,
    Nat.mod_eq_of_lt b5, Nat.mod_eq_of_lt b6, Nat.mod_eq_of_lt b7, Nat.mod_eq_of_lt b8,
    Nat.mod_eq_of_lt b9]
  have e : r0 % 128 % 256 = r0 % 128 := by omega
  rw [e]
  exact ⟨rfl, by omega⟩

/-- Claim C13. In both construction paths, `generate_ulid` and `timestamp_to_ulid`, and for every
draw `r` of ten random bytes, the value has `data[6] = r[0] & 0x7F`, whose top bit is 0, and
`data[7..15] = r[1..9]`: one payload bit is forced and the other 79 are those of the draw,
the same in both paths. -/
theorem payload_of_draw (tp : timespec) (ts : Int) (r : ByteArr ULID_RANDOM_LENGTH) :
    ((generate_ulid tp r).get 6 = r.bytes.getD 0 0 &&& 0x7F ∧
      ((generate_ulid tp r).get 6).testBit 7 = false ∧
      (generate_ulid tp r).data.bytes.drop 7 = r.bytes.drop 1) ∧
    ((timestamp_to_ulid ts r).get 6 = r.bytes.getD 0 0 &&& 0x7F ∧
      ((timestamp_to_ulid ts r).get 6).testBit 7 = false ∧
      (timestamp_to_ulid ts r).data.bytes.drop 7 = r.bytes.drop 1) ∧
    (generate_ulid tp r).data.bytes.drop 6 = (timestamp_to_ulid ts r).data.bytes.drop 6 := by
  have key : ∀ u : ulid, u.data.bytes.drop 6 = (r.bytes.getD 0 0 &&& 0x7F) :: r.bytes.drop 1 →
      u.get 6 = r.bytes.getD 0 0 &&& 0x7F ∧ (u.get 6).testBit 7 = false ∧
        u.data.bytes.drop 7 = r.bytes.drop 1 := by
    intro u hu
    have h6 : u.get 6 = r.bytes.getD 0 0 &&& 0x7F := by
      have : u.get 6 = (u.data.bytes.drop 6).getD 0 0 := by
        rw [ulid.get, List.getD_eq_getElem?_getD, List.getD_eq_getElem?_getD,
          List.getElem?_drop]
      rw [this, hu, List.getD_cons_zero]
    have h7 : u.data.bytes.drop 7 = r.bytes.drop 1 := by
      have : u.data.bytes.drop 7 = (u.data.bytes.drop 6).drop 1 := by
        rw [List.drop_drop]
      rw [this, hu, List.drop_succ_cons, List.drop_zero]
    refine ⟨h6, ?_, h7⟩
    rw [h6]
    exact Nat.testBit_lt_two_pow (payload_bytes 0 r).2
  have hg := (payload_bytes (u64 ((u64 tp.tv_sec : Int) * 1000 + tp.tv_nsec.tdiv 1000000)) r).1
  have ht := (payload_bytes (u64 ((u64 (ts.tdiv 1000) : Int) + EpochMillis)) r).1
  exact ⟨key (generate_ulid tp r) hg, key (timestamp_to_ulid ts r) ht, hg.trans ht.symm⟩

/-- Claim C12. For a clock reading with `tv_sec ≥ 0` and `0 ≤ tv_nsec < 10 ^ 9` and any random
draw, bytes 0..5 of the generated value are the big-endian encoding of
`(tv_sec * 1000 + tv_nsec / 1000000) mod 2 ^ 48`. -/
theorem generate_ulid_timestamp (tp : timespec) (r : ByteArr ULID_RANDOM_LENGTH)
    (hv : tp.valid) :
    ((generate_ulid tp r).timestampField : Int) =
      (tp.tv_sec * 1000 + tp.tv_nsec / 1000000) % 2 ^ 48 ∧
    ∃ m : Nat, (m : Int) = (tp.tv_sec * 1000 + tp.tv_nsec / 1000000) % 2 ^ 48 ∧
      (generate_ulid tp r).data.bytes.take 6 =
        [ m / 2 ^ 40 % 256, m / 2 ^ 32 % 256, m / 2 ^ 24 % 256, m / 2 ^ 16 % 256,
          m / 2 ^ 8 % 256, m % 256 ] := by
  obtain ⟨h1, h2, h3⟩ := hv
  obtain ⟨t, p0, p1, p2, p3, p4, p5, p6, p7, p8, p9, hts, hb⟩ := generate_ulid_bytes tp r
  have hm : ((t % 2 ^ 48 : Nat) : Int) = (tp.tv_sec * 1000 + tp.tv_nsec / 1000000) % 2 ^ 48 := by
    rw [hts]
    push_cast
    rw [u64_eq, u64_eq, tdiv_1000000_nonneg _ h2]
    omega
  refine ⟨?_, t % 2 ^ 48, hm, ?_⟩
  · rw [timestampField_generate_ulid, ← hts]
    exact hm
  · rw [hb]
    show [t / 2 ^ 40 % 256, t / 2 ^ 32 % 256, t / 2 ^ 24 % 256, t / 2 ^ 16 % 256,
      t / 2 ^ 8 % 256, t % 256] = _
    have e0 : t % 2 ^ 48 / 2 ^ 40 % 256 = t / 2 ^ 40 % 256 := by omega
    have e1 : t % 2 ^ 48 / 2 ^ 32 % 256 = t / 2 ^ 32 % 256 := by omega
    have e2 : t % 2 ^ 48 / 2 ^ 24 % 256 = t / 2 ^ 24 % 256 := by omega
    have e3 : t % 2 ^ 48 / 2 ^ 16 % 256 = t / 2 ^ 16 % 256 := by omega
    have e4 : t % 2 ^ 48 / 2 ^ 8 % 256 = t / 2 ^ 8 % 256 := by omega
    have e5 : t % 2 ^ 48 % 256 = t % 256 := by omega
    rw [e0, e1, e2, e3, e4, e5]

/-- Witness for `generate_ulid_timestamp`: the reading `clockA`, 1700000000123 ms after the
epoch. -/
theorem generate_ulid_timestamp_witness :
    clockA.valid ∧ ((generate_ulid clockA drawZero).timestampField : Int) = 1700000000123 :=
  ⟨by decide, (generate_ulid_timestamp clockA drawZero (by decide)).1.trans (by decide)⟩

/-! ## The six predicates -/

/-- Claim C15. The six predicates test the result of the same comparison as `ulid_cmp`:
`ulid_eq` is `= 0`, `ulid_neq` is `≠ 0`, `ulid_lt` is `< 0`, `ulid_leq` is `≤ 0`, `ulid_gt` is
`> 0`, `ulid_geq` is `≥ 0`; so `ulid_neq` is the negation of `ulid_eq`, `ulid_leq` of
`ulid_gt`, `ulid_geq` of `ulid_lt`, and `ulid_eq a b` holds exactly when the sixteen bytes of
`a` and `b` are the same. -/
theorem predicates_from_cmp (a b : ulid) :
    ((ulid_eq a b = true ↔ ulid_cmp a b = 0) ∧ (ulid_neq a b = true ↔ ulid_cmp a b ≠ 0) ∧
      (ulid_lt a b = true ↔ ulid_cmp a b < 0) ∧ (ulid_leq a b = true ↔ ulid_cmp a b ≤ 0) ∧
      (ulid_gt a b = true ↔ ulid_cmp a b > 0) ∧ (ulid_geq a b = true ↔ ulid_cmp a b ≥ 0)) ∧
    (ulid_neq a b = !ulid_eq a b ∧ ulid_leq a b = !ulid_gt a b ∧
      ulid_geq a b = !ulid_lt a b) ∧
    (ulid_eq a b = true ↔ a.data.bytes = b.data.bytes) := by
  have h1 : ulid_eq a b = decide (ulid_cmp a b = 0) := rfl
  have h2 : ulid_neq a b = decide (ulid_cmp a b ≠ 0) := rfl
  have h3 : ulid_lt a b = decide (ulid_cmp a b < 0) := rfl
  have h4 : ulid_leq a b = decide (ulid_cmp a b ≤ 0) := rfl
  have h5 : ulid_gt a b = decide (ulid_cmp a b > 0) := rfl
  have h6 : ulid_geq a b = decide (ulid_cmp a b ≥ 0) := rfl
  refine ⟨⟨?_, ?_, ?_, ?_, ?_, ?_⟩, ⟨?_, ?_, ?_⟩, ?_⟩
  · rw [h1, decide_eq_true_iff]
  · rw [h2, decide_eq_true_iff]
  · rw [h3, decide_eq_true_iff]
  · rw [h4, decide_eq_true_iff]
  · rw [h5, decide_eq_true_iff]
  · rw [h6, decide_eq_true_iff]
  · rw [h1, h2]; simp
  · rw [h4, h5]
    by_cases h : ulid_cmp a b ≤ 0 <;> simp [h] <;> omega
  · rw [h6, h3]
    by_cases h : ulid_cmp a b < 0 <;> simp [h] <;> omega
  · rw [h1, decide_eq_true_iff, ulid_cmp_eq_zero_iff]
    exact ⟨fun h => by rw [h], ulid.eq_of_bytes⟩

/-! ## The sample text -/

/-- Claim C16. Parsing the text `01BX5ZZKBKACTAV9WEVGEMMVRY` with `ulid_in` succeeds, and
formatting the resulting value with `ulid_out` gives `01BX5ZZKBKACTAV9WEVGEMMVRY` again. -/
theorem sampleText_roundtrip :
    ∃ v, ulid_in sampleText = .ok v ∧ cstr (ulid_out v) = sampleText :=
  ⟨_, rfl, by decide⟩

/-! ## Hashing -/

/-- Claim C17. Whatever the host hash function is, `ulid_hash` applies it to the sixteen data
bytes of the value with key length 16 and to nothing else, so two values that `ulid_eq` finds
equal have the same hash. -/
theorem ulid_hash_of_eq (hash_any : List Nat → Nat → Nat) (a b : ulid)
    (h : ulid_eq a b = true) :
    ulid_hash hash_any a = ulid_hash hash_any b ∧
      ulid_hash hash_any a = hash_any a.data.bytes 16 ∧ a.data.bytes.length = 16 := by
  have hab : a = b := by
    have h1 : ulid_eq a b = decide (ulid_cmp a b = 0) := rfl
    rw [h1, decide_eq_true_iff] at h
    exact (ulid_cmp_eq_zero_iff a b).mp h
  subst hab
  exact ⟨rfl, rfl, a.length_bytes⟩

/-- Witness for `ulid_hash_of_eq`: the value with first byte 2 against itself, hashed with the
byte sum. -/
theorem ulid_hash_of_eq_witness :
    ulid_eq twoUlid twoUlid = true ∧ ulid_hash sumHash twoUlid = ulid_hash sumHash twoUlid ∧
      ulid_hash sumHash twoUlid = sumHash twoUlid.data.bytes 16 ∧
      twoUlid.data.bytes.length = 16 :=
  ⟨by decide, ulid_hash_of_eq sumHash twoUlid twoUlid (by decide)⟩

/-! ## Binary protocol -/

theorem memcpy_bytes (n : Nat) (src : ByteArr n) : memcpy n src.bytes = src := by
  obtain ⟨l, hl, hb⟩ := src
  have e : (l ++ List.replicate n 0).take n = l := by
    subst hl
    simp
  have e2 : List.map (fun x => x % 256) l = l := by
    conv_rhs => rw [← List.map_id l]
    exact List.map_congr_left (fun x hx => Nat.mod_eq_of_lt (hb x hx))
  simp only [memcpy, store, e, e2]

/-- Claim C18. The binary encoding is the identity on the sixteen bytes: `ulid_send` emits the
sixteen bytes of the value in order; `ulid_recv` on a message of any sixteen bytes succeeds
and yields the value with those bytes; so receiving what was sent gives the value back. -/
theorem binary_roundtrip (v : ulid) :
    (ulid_send v = v.data.bytes ∧ (ulid_send v).length = 16) ∧
    (∀ b : ByteArr 16, ulid_recv ⟨b.bytes, 0⟩ = .ok (⟨b⟩, ⟨b.bytes, 16⟩)) ∧
    ulid_recv ⟨ulid_send v, 0⟩ = .ok (v, ⟨ulid_send v, 16⟩) := by
  have take16 : ∀ l : List Nat, l.length = 16 → List.take sizeof_data l = l :=
    fun l hl => List.take_of_length_le (by rw [hl]; decide)
  have hsend : ulid_send v = v.data.bytes := by
    simp only [ulid_send, pq_endtypsend, pq_sendbytes, pq_begintypsend, List.nil_append]
    exact take16 _ v.length_bytes
  have hrecv : ∀ b : ByteArr 16, ulid_recv ⟨b.bytes, 0⟩ = .ok (⟨b⟩, ⟨b.bytes, 16⟩) := by
    intro b
    have hget : pq_getmsgbytes ⟨b.bytes, 0⟩ sizeof_data = .ok (b.bytes, ⟨b.bytes, 16⟩) := by
      have hl : ¬ (sizeof_data > b.bytes.length - 0) := by rw [b.size_eq]; decide
      rw [pq_getmsgbytes, if_neg hl]
      simp only [List.drop_zero, take16 _ b.size_eq, Nat.zero_add]
      rfl
    rw [ulid_recv, hget]
    show Except.ok (ulid.mk (memcpy 16 b.bytes), _) = _
    rw [memcpy_bytes]
  refine ⟨⟨hsend, by rw [hsend]; exact v.length_bytes⟩, hrecv, ?_⟩
  rw [hsend]
  exact hrecv v.data

/-! ## Parsing as truncation to 128 bits -/

theorem alphabetIndex_at (i : Nat) (h : i < 32) : alphabetIndex (Encoding.at i) = i := by
  interval_cases i <;> rfl

theorem at_mem_first8 (n : Nat) (hn : n < 32) :
    Encoding.at n ∈ ['0', '1', '2', '3', '4', '5', '6', '7'] ↔ n < 8 := by
  interval_cases n <;> decide

theorem beVal_truncate (c0 R : Nat) (hR : R < 32 ^ 25) :
    (c0 * 32 ^ 25 + R) % 2 ^ 128 = c0 % 8 * 32 ^ 25 + R := by
  omega

/-- Claim C19. For a string `s` of 26 alphabet characters `ulid_in` succeeds, and the value has
the 128-bit number `(Σ idx(s[i]) * 32 ^ (25 - i)) mod 2 ^ 128`: the two high bits of the first
character's index are cut off by the store into `data[0]`, not rejected.  So the text of the
parsed value is `s` with its first character replaced by the alphabet symbol at index
`idx(s[0]) mod 8`, and it is `s` itself exactly when `s[0]` is one of `0`..`7`. -/
theorem ulid_in_truncates (s : List Char) (hlen : s.length = 26)
    (halpha : ∀ c ∈ s, inAlphabet c) :
    ∃ v, ulid_in s = .ok v ∧
      v.toNat = beVal 32 (s.map alphabetIndex) % 2 ^ 128 ∧
      cstr (ulid_out v) = Encoding.at (alphabetIndex (charAt s 0) % 8) :: s.tail ∧
      (cstr (ulid_out v) = s ↔ charAt s 0 ∈ ['0', '1', '2', '3', '4', '5', '6', '7']) := by
  obtain ⟨c, hc, hs⟩ := alphabet_indices s hlen halpha
  obtain ⟨v, hv, hout⟩ := parse_format_indices c hc
  have h0 := hc 0 (by decide)
  have hfirst : charAt s 0 = Encoding.at (c 0) := by rw [hs]; rfl
  have htail : s.tail = (List.range' 1 25).map (fun i => Encoding.at (c i)) := by rw [hs]; rfl
  have hidx : s.map alphabetIndex = c 0 :: (List.range' 1 25).map c := by
    rw [hs, List.map_map]
    show (List.range 26).map _ = (List.range 26).map c
    apply List.map_congr_left
    intro i hi
    exact alphabetIndex_at _ (hc i (List.mem_range.mp hi))
  have hrest : ∀ y ∈ (List.range' 1 25).map c, y < 32 := by
    intro y hy
    obtain ⟨i, hi, rfl⟩ := List.mem_map.mp hy
    exact hc i (by have := List.mem_range'_1.mp hi; omega)
  have hout' : cstr (ulid_out v) =
      ((c 0 % 8) :: (List.range' 1 25).map c).map Encoding.at := by
    rw [hout]; rfl
  refine ⟨v, by rw [hs]; exact hv, ?_, ?_, ?_⟩
  · obtain ⟨ds, hdl, hds, htext, hval⟩ := text_digits v
    have hlen2 : ds.length = ((c 0 % 8) :: (List.range' 1 25).map c).length := by
      rw [hdl]; simp
    have hdig : ∀ y ∈ (c 0 % 8) :: (List.range' 1 25).map c, y < 32 := by
      intro y hy
      rcases List.mem_cons.mp hy with rfl | hy
      · omega
      · exact hrest y hy
    have e : ds = (c 0 % 8) :: (List.range' 1 25).map c := by
      apply (map_at_eq_iff ds _ hlen2 hds hdig).mp
      rw [← htext, ← hout']; rfl
    have hR := beVal_lt_pow 32 _ hrest
    have hl25 : ((List.range' 1 25).map c).length = 25 := by simp
    rw [hl25] at hR
    rw [← hval, e, hidx]
    show c 0 % 8 * 32 ^ ((List.range' 1 25).map c).length + _ =
      (c 0 * 32 ^ ((List.range' 1 25).map c).length + _) % 2 ^ 128
    rw [hl25]
    exact (beVal_truncate _ _ hR).symm
  · rw [hout, hfirst, alphabetIndex_at _ h0, htail]; rfl
  · rw [hfirst, at_mem_first8 _ h0, hout']
    have hs' : s = ((c 0) :: (List.range' 1 25).map c).map Encoding.at := by
      conv_lhs => rw [hs]
      rfl
    constructor
    · intro h
      rw [hs'] at h
      have := (List.cons.inj h).1
      have := Encoding.at_injective _ _ (by omega) h0 this
      omega
    · intro h
      rw [Nat.mod_eq_of_lt h]
      exact hs'.symm

/-- Witness for `ulid_in_truncates`: the text of 26 `Z`, which parses to the value of sixteen
bytes `0xFF`. -/
theorem ulid_in_truncates_witness :
    allZText.length = 26 ∧ (∀ c ∈ allZText, inAlphabet c) ∧
      ∃ v, ulid_in allZText = .ok v ∧
        v.toNat = beVal 32 (allZText.map alphabetIndex) % 2 ^ 128 ∧
        cstr (ulid_out v) = Encoding.at (alphabetIndex (charAt allZText 0) % 8) :: allZText.tail ∧
        (cstr (ulid_out v) = allZText ↔
          charAt allZText 0 ∈ ['0', '1', '2', '3', '4', '5', '6', '7']) :=
  ⟨by decide, by decide, ulid_in_truncates allZText (by decide) (by decide)⟩

/-! ## The buffer of `ulid_out` -/

theorem writeAt_length (str str' : List Char) (i : Nat) (c : Char)
    (h : writeAt str i c = some str') : str'.length = str.length := by
  unfold writeAt at h
  split_ifs at h
  cases h
  simp

theorem storeFrom_none (cs str : List Char) (i : Nat) (hi : i ≤ str.length)
    (h : str.length < i + cs.length) : storeFrom str i cs = none := by
  induction cs generalizing str i with
  | nil => simp at h; omega
  | cons c cs ih =>
    rw [storeFrom]
    cases hw : writeAt str i c with
    | none => rfl
    | some str' =>
      have hl := writeAt_length _ _ _ _ hw
      have hlt : i < str.length := by
        unfold writeAt at hw
        split_ifs at hw with hh
        exact hh
      simp only
      exact ih str' (i + 1) (by omega) (by simp only [List.length_cons] at h; omega)

theorem storeFrom_some (cs str : List Char) (i : Nat) (h : i + cs.length ≤ str.length) :
    storeFrom str i cs = some (str.take i ++ cs ++ str.drop (i + cs.length)) := by
  induction cs generalizing str i with
  | nil => simp [storeFrom]
  | cons c cs ih =>
    simp only [List.length_cons] at h
    have hlt : i < str.length := by omega
    rw [storeFrom, writeAt, if_pos hlt]
    simp only
    rw [ih (str.set i c) (i + 1) (by simp; omega)]
    congr 1
    rw [List.set_eq_take_append_cons_drop, if_pos hlt]
    have h1 : List.take (i + 1) (List.take i str ++ c :: List.drop (i + 1) str) =
        List.take i str ++ [c] := by
      rw [List.take_append_eq_append_take]
      simp [List.length_take, Nat.min_eq_left (Nat.le_of_lt hlt)]
    have h2 : List.drop (i + 1 + cs.length) (List.take i str ++ c :: List.drop (i + 1) str) =
        List.drop (i + (cs.length + 1)) str := by
      rw [List.drop_append_eq_append_drop]
      simp [List.length_take, Nat.min_eq_left (Nat.le_of_lt hlt)]
      have : i + 1 + cs.length - i = cs.length + 1 := by omega
      rw [List.drop_eq_nil_of_le (by simp [List.length_take]; omega), this]
      simp [List.drop_drop]
      congr 1; omega
    rw [h1, h2]
    simp

theorem length_ulid_to_string (u : ulid) : (ulid_to_string u).length = 27 := rfl

/-- Claim C20, evaluated on the code. With bounds-checked stores the format operation of
`ulid_out` ends in the out-of-range branch, for every value: the buffer from `palloc(17)` has
17 chars and `ulid_to_string` stores at the indices 0 to 26.  The stores at `str[0..16]`
succeed, the store at `str[17]` is out of range; into a buffer of 27 chars all 27 stores
succeed and leave the text there. -/
theorem ulid_out_checked_out_of_range (u : ulid) :
    ulid_out_checked u = none ∧
    ((palloc 17).length = 17 ∧ (ulid_to_string u).length = 27) ∧
    storeFrom (palloc 17) 0 ((ulid_to_string u).take 17) = some ((ulid_to_string u).take 17) ∧
    writeAt ((ulid_to_string u).take 17) 17 ((ulid_to_string u).getD 17 NUL) = none ∧
    ulid_to_string_checked u (palloc 27) = some (ulid_to_string u) := by
  have h27 := length_ulid_to_string u
  have hp : ∀ n, (palloc n).length = n := fun n => by simp [palloc]
  have ht : ((ulid_to_string u).take 17).length = 17 := by
    rw [List.length_take, h27]; rfl
  refine ⟨?_, ⟨hp 17, h27⟩, ?_, ?_, ?_⟩
  · exact storeFrom_none _ _ 0 (Nat.zero_le _) (by rw [hp, h27]; decide)
  · rw [storeFrom_some _ _ 0 (by rw [hp, ht]), ht, List.drop_eq_nil_of_le (by rw [hp])]
    simp
  · rw [writeAt, ht, if_neg (by decide)]
  · rw [ulid_to_string_checked, storeFrom_some _ _ 0 (by rw [hp, h27]), h27,
      List.drop_eq_nil_of_le (by rw [hp])]
    simp

end Ulid
